import Mathlib

/-!
Verification development for the mini-vue reactivity core
(packages/reactivity: effect.ts, baseHandlers.ts, reactive.js, ref.js,
computed.js, constants.js, warning.js).

The JavaScript code is shallowly embedded as follows:
- the mutable module-level registries (`targetMap`, `activeEffect`,
  `effectStack`, the `reactiveMap`/`readonlyMap` proxy caches, ...) become
  fields of an explicit `Engine` state record that is threaded through
  every operation;
- JS `Map`/`WeakMap`/`Set` become association lists (`Map.set` replaces in
  place, `WeakMap.set`/`Set.add` append, preserving JS insertion order);
- JS values relevant to the claims become the inductive `Val`
  (`undefined`, numbers with NaN and negative zero kept distinct so that
  `Object.is` is faithful, raw objects and proxies by identity);
- user computation bodies (the `fn` passed to `effect`, computed getters)
  become a small expression language `Exp`; the engine's mutually
  recursive functions (`effect` runners, `track`, `trigger`, proxy
  handlers, ref accessors, computed getters) become a fuel-indexed
  interpreter `interp : Nat → Interp`, structurally recursive on the fuel
  so that concrete runs reduce by `rfl`/`decide`.  JS exceptions become an
  explicit result type `Res`.
-/

namespace MiniVue

/-- JS numbers as used by the claims: NaN and negative zero are kept as
separate constructors so that the `Object.is` ("same value") comparison of
`ref.js`'s `hasChanged` can be modelled faithfully; all other numbers in
the claims are integers. -/
inductive JsNum where
  | nan : JsNum
  | negZero : JsNum
  | int (n : Int) : JsNum
deriving DecidableEq, Repr

/-- JS values flowing through the reactivity core in the claims:
`undefined`, numbers, raw (plain) objects by heap identity, and reactive
proxies by identity. -/
inductive Val where
  | undef : Val
  | num (n : JsNum) : Val
  | obj (o : Nat) : Val
  | proxy (p : Nat) : Val
deriving DecidableEq, Repr

/-- `Object.is` on two `JsNum`s: NaN equals itself, `-0` differs from `+0`. -/
def sameNum : JsNum → JsNum → Bool
  | JsNum.nan, JsNum.nan => true
  | JsNum.negZero, JsNum.negZero => true
  | JsNum.int m, JsNum.int n => m = n
  | _, _ => false

/-- `Object.is` on `Val`s (objects and proxies compare by reference
identity, which is their id here). -/
def sameVal : Val → Val → Bool
  | Val.undef, Val.undef => true
  | Val.num a, Val.num b => sameNum a b
  | Val.obj a, Val.obj b => a = b
  | Val.proxy a, Val.proxy b => a = b
  | _, _ => false

/-- JS truthiness for the modelled values. -/
def truthy : Val → Bool
  | Val.undef => false
  | Val.num JsNum.nan => false
  | Val.num JsNum.negZero => false
  | Val.num (JsNum.int n) => !(n = 0)
  | Val.obj _ => true
  | Val.proxy _ => true

/-- `isObject` of @vue/shared restricted to the modelled values: raw
objects and proxies are objects, `undefined` and numbers are not. -/
def isObjectV : Val → Bool
  | Val.obj _ => true
  | Val.proxy _ => true
  | _ => false

/-- JS numeric coercion for the arithmetic the claims use (`a.value * 2`,
`b.value + 1`): `undefined` coerces to NaN.  String/object coercion is not
exercised by any claim. -/
def toNum : Val → JsNum
  | Val.num n => n
  | _ => JsNum.nan

/-- Addition on the number model (NaN propagates; the exact sign of a zero
result is not exercised by any claim). -/
def jsAddNum : JsNum → JsNum → JsNum
  | JsNum.nan, _ => JsNum.nan
  | _, JsNum.nan => JsNum.nan
  | JsNum.negZero, JsNum.negZero => JsNum.negZero
  | JsNum.negZero, JsNum.int n => JsNum.int n
  | JsNum.int m, JsNum.negZero => JsNum.int m
  | JsNum.int m, JsNum.int n => JsNum.int (m + n)

/-- Multiplication on the number model (NaN propagates). -/
def jsMulNum : JsNum → JsNum → JsNum
  | JsNum.nan, _ => JsNum.nan
  | _, JsNum.nan => JsNum.nan
  | JsNum.negZero, _ => JsNum.negZero
  | _, JsNum.negZero => JsNum.negZero
  | JsNum.int m, JsNum.int n => JsNum.int (m * n)

def jsAdd (a b : Val) : Val := Val.num (jsAddNum (toNum a) (toNum b))

def jsMul (a b : Val) : Val := Val.num (jsMulNum (toNum a) (toNum b))

/-- Identity of a tracked source as passed to `track`/`trigger`: a raw
object (the `target` of a proxy handler), an inner proxy (when a proxy
wraps another proxy, `Reflect` operations hit the inner proxy as the raw
target), a `RefImpl`, or a `ComputedRefImpl`. -/
inductive Src where
  | obj (o : Nat) : Src
  | prox (p : Nat) : Src
  | ref (r : Nat) : Src
  | comp (c : Nat) : Src
deriving DecidableEq, Repr

/-- The tracked source corresponding to a `Val` used as a handler target
(only objects can be WeakMap keys / proxy targets). -/
def srcOfVal : Val → Option Src
  | Val.obj o => some (Src.obj o)
  | Val.proxy p => some (Src.prox p)
  | _ => none

/-- Outcome of a fallible engine operation: JS exceptions propagate as
`err`.  `Err.fuel` marks interpreter fuel exhaustion (never reachable on a
run that the theorems call successful). -/
inductive Err where
  | fuel : Err
  | user (n : Nat) : Err
deriving DecidableEq, Repr

inductive Res (α : Type) where
  | ok (v : α) : Res α
  | err (e : Err) : Res α
deriving DecidableEq, Repr

/-- Bodies of user computations (the `fn` of `effect`, computed getters):
literals, sequencing, the arithmetic the claims use, a raising statement,
and reads/writes through refs, proxies and computed values. -/
inductive Exp where
  | lit (v : Val) : Exp
  | seq (a b : Exp) : Exp
  | add (a b : Exp) : Exp
  | mul (a b : Exp) : Exp
  | throwE (n : Nat) : Exp
  | refGetE (r : Nat) : Exp
  | refSetE (r : Nat) (e : Exp) : Exp
  | propGetE (t : Val) (k : String) : Exp
  | propSetE (t : Val) (k : String) (e : Exp) : Exp
  | compGetE (c : Nat) : Exp
deriving DecidableEq, Repr

/-- The re-run policy stored in `effect.options.scheduler`.  The only
scheduler the repository constructs is the one `ComputedRefImpl` installs
(flip `_dirty`, notify dependents); it is identified by its computed id. -/
inductive Sched where
  | comp (c : Nat) : Sched
deriving DecidableEq, Repr

/-- The data `createReactiveEffect` attaches to a runner: the raw function
and the options (only the scheduler matters to behavior; `lazy` is
consumed at creation time). -/
structure EffDef where
  body : Exp
  scheduler : Option Sched
deriving DecidableEq, Repr

/-- State of a `RefImpl`: `_rawValue`, `_value`, `__v_isShallow`. -/
structure RefSt where
  rawValue : Val
  value : Val
  shallow : Bool
deriving DecidableEq, Repr

/-- State of a `ComputedRefImpl`: `_dirty`, `_value`, and the id of its
internal lazy effect. -/
structure CompSt where
  dirty : Bool
  value : Val
  eff : Nat
deriving DecidableEq, Repr

/-- What `createReactiveObj` fixes per proxy: the wrapped target and the
handler variant, identified by the two `createGetter`/`createSetter`
factory flags (`isReadonly`, `shallow`). -/
structure ProxyInfo where
  target : Val
  isReadonly : Bool
  shallow : Bool
deriving DecidableEq, Repr

/-- Association-list lookup (first match wins, like iterating a JS map). -/
def lookupA {α β : Type} [DecidableEq α] : List (α × β) → α → Option β
  | [], _ => none
  | (a, b) :: t, k => if a = k then some b else lookupA t k

/-- Association-list update: replace in place if the key exists (JS
`Map.set` keeps insertion order), otherwise append. -/
def insertA {α β : Type} [DecidableEq α] : List (α × β) → α → β → List (α × β)
  | [], k, v => [(k, v)]
  | (a, b) :: t, k, v => if a = k then (k, v) :: t else (a, b) :: insertA t k v

/-- The whole mutable state of the reactivity modules: raw-object heap,
proxies with their two identity-keyed caches (`reactiveMap` shared by
`reactive`/`shallowReactive`, `readonlyMap` shared by
`readonly`/`shallowReadonly`), ref and computed instances, the effect
registry with its uid counter, the module-level `activeEffect` and
`effectStack`, and the dependency graph `targetMap`.  `runLog` is a ghost
log of effect executions and `warnings` a ghost log of the warning
channel; neither influences behavior. -/
structure Engine where
  objs : List (Nat × List (String × Val))
  proxies : List (Nat × ProxyInfo)
  reactiveMap : List (Val × Nat)
  readonlyMap : List (Val × Nat)
  nextProxy : Nat
  refs : List (Nat × RefSt)
  nextRef : Nat
  comps : List (Nat × CompSt)
  nextComp : Nat
  effs : List (Nat × EffDef)
  nextEff : Nat
  activeEffect : Option Nat
  effectStack : List Nat
  targetMap : List (Src × List (String × List Nat))
  runLog : List Nat
  warnings : List String
deriving DecidableEq, Repr

def emptyEngine : Engine :=
  { objs := [], proxies := [], reactiveMap := [], readonlyMap := [],
    nextProxy := 0, refs := [], nextRef := 0, comps := [], nextComp := 0,
    effs := [], nextEff := 0, activeEffect := none, effectStack := [],
    targetMap := [], runLog := [], warnings := [] }

/-- Raw property lookup on a plain object (missing property reads as
`undefined`). -/
def objFieldLookup (s : Engine) (o : Nat) (k : String) : Val :=
  match lookupA s.objs o with
  | none => Val.undef
  | some flds =>
    match lookupA flds k with
    | none => Val.undef
    | some v => v

/-- Raw property assignment on a plain object. -/
def setObjField (s : Engine) (o : Nat) (k : String) (v : Val) : Engine :=
  match lookupA s.objs o with
  | none => s
  | some flds => { s with objs := insertA s.objs o (insertA flds k v) }

/-- The dependency set recorded for a (source, key) pair, if any. -/
def depLookup (s : Engine) (t : Src) (k : String) : Option (List Nat) :=
  match lookupA s.targetMap t with
  | none => none
  | some depMap => lookupA depMap k

/-- `track(target, type, key)` of effect.ts: no-op without an active
effect; otherwise ensure the `targetMap` entry and the per-key dep set
exist and add the active effect if not already a member. -/
def trackOp (t : Src) (k : String) (s : Engine) : Engine :=
  match s.activeEffect with
  | none => s
  | some a =>
    let depMap := (lookupA s.targetMap t).getD []
    let dep := (lookupA depMap k).getD []
    if a ∈ dep then s
    else { s with targetMap := insertA s.targetMap t (insertA depMap k (dep ++ [a])) }

/-- The snapshot of runners `trigger(target, type, key)` will invoke: the
dep set of the key with the currently active effect filtered out (the
self-trigger suppression of effect.ts).  The dep set is duplicate-free
(`track` checks membership before adding), matching the `Set` the source
builds. -/
def triggerTargets (s : Engine) (t : Src) (k : String) : List Nat :=
  match lookupA s.targetMap t with
  | none => []
  | some depMap =>
    match lookupA depMap k with
    | none => []
    | some dep => dep.filter (fun e => !(s.activeEffect = some e))

/-- `createReactiveObj` of reactive.js: non-objects pass through; the
cache for the mutability family (`readonlyMap` for the two read-only
variants, `reactiveMap` otherwise) is consulted first; on a miss a fresh
proxy is created with the requested handler variant and cached. -/
def createReactiveObj (target : Val) (isReadonly shallow : Bool) (s : Engine) :
    Engine × Val :=
  if isObjectV target then
    match lookupA (if isReadonly then s.readonlyMap else s.reactiveMap) target with
    | some p => (s, Val.proxy p)
    | none =>
      ({ s with
          proxies := s.proxies ++ [(s.nextProxy, ⟨target, isReadonly, shallow⟩)],
          nextProxy := s.nextProxy + 1,
          reactiveMap := if isReadonly then s.reactiveMap
            else s.reactiveMap ++ [(target, s.nextProxy)],
          readonlyMap := if isReadonly then s.readonlyMap ++ [(target, s.nextProxy)]
            else s.readonlyMap },
        Val.proxy s.nextProxy)
  else (s, target)

/-- `reactive` (deep mutable). -/
def reactiveF (t : Val) (s : Engine) : Engine × Val :=
  createReactiveObj t false false s

/-- `shallowReactive`. -/
def shallowReactiveF (t : Val) (s : Engine) : Engine × Val :=
  createReactiveObj t false true s

/-- `readonly` (deep read-only). -/
def readonlyF (t : Val) (s : Engine) : Engine × Val :=
  createReactiveObj t true false s

/-- `shallowReadonly`. -/
def shallowReadonlyF (t : Val) (s : Engine) : Engine × Val :=
  createReactiveObj t true true s

/-- `toReactive` of ref.js: wrap objects with `reactive`, pass scalars
through. -/
def toReactiveVal (v : Val) (s : Engine) : Engine × Val :=
  if isObjectV v then reactiveF v s else (s, v)

/-- The message the read-only set traps of baseHandlers.ts pass to the
warning channel. -/
def readonlyWarnMsg (k : String) : String :=
  "Delete operation on key \"" ++ k ++ "\" failed: target is readonly."

/-- The mutually recursive operations of the engine, at one fuel level.
Members at fuel level `n + 1` delegate to the level-`n` bundle for every
recursive call; level 0 reports fuel exhaustion (`getField` and `toRawVal`
return `undefined` respectively their argument there, as they have no
error channel — no claim's run ever reaches level 0). -/
structure Interp where
  evalExp : Exp → Engine → Engine × Res Val
  getField : Val → String → Engine → Engine × Val
  setField : Val → String → Val → Engine → Engine × Res Unit
  runEff : Nat → Engine → Engine × Res Val
  runEffList : List Nat → Engine → Engine × Res Unit
  triggerRun : Src → String → Engine → Engine × Res Unit
  schedRun : Sched → Engine → Engine × Res Unit
  compGetV : Nat → Engine → Engine × Res Val
  refSetV : Nat → Val → Engine → Engine × Res Unit
  toRawVal : Val → Engine → Engine × Val

def iEval (I : Interp) : Exp → Engine → Engine × Res Val := I.evalExp

def iGet (I : Interp) : Val → String → Engine → Engine × Val := I.getField

def iSet (I : Interp) : Val → String → Val → Engine → Engine × Res Unit := I.setField

def iRun (I : Interp) : Nat → Engine → Engine × Res Val := I.runEff

def iRunList (I : Interp) : List Nat → Engine → Engine × Res Unit := I.runEffList

def iTrig (I : Interp) : Src → String → Engine → Engine × Res Unit := I.triggerRun

def iSched (I : Interp) : Sched → Engine → Engine × Res Unit := I.schedRun

def iComp (I : Interp) : Nat → Engine → Engine × Res Val := I.compGetV

def iRefSet (I : Interp) : Nat → Val → Engine → Engine × Res Unit := I.refSetV

def iToRaw (I : Interp) : Val → Engine → Engine × Val := I.toRawVal

/-- Property read, one step: raw lookup for plain objects; for a proxy the
`createGetter` body of baseHandlers.ts — `Reflect.get`, then `track` unless
read-only, then return raw for shallow variants, re-wrap object results
with the matching deep variant, and return scalars unchanged. -/
def getFieldF (I : Interp) : Val → String → Engine → Engine × Val
  | Val.obj o, k, s => (s, objFieldLookup s o k)
  | Val.proxy p, k, s =>
    (match lookupA s.proxies p with
     | none => (s, Val.undef)
     | some info =>
       match iGet I info.target k s with
       | (s1, res) =>
         let s2 :=
           if info.isReadonly then s1
           else
             match srcOfVal info.target with
             | some t => trackOp t k s1
             | none => s1
         if info.shallow then (s2, res)
         else if isObjectV res then
           createReactiveObj res info.isReadonly false s2
         else (s2, res))
  | _, _, s => (s, Val.undef)

/-- Property write, one step: raw assignment for plain objects; for a
proxy either the warn-only read-only set trap, or the `createSetter` body
— capture the prior value, `Reflect.set`, then `trigger`. -/
def setFieldF (I : Interp) : Val → String → Val → Engine → Engine × Res Unit
  | Val.obj o, k, v, s => (setObjField s o k v, Res.ok ())
  | Val.proxy p, k, v, s =>
    (match lookupA s.proxies p with
     | none => (s, Res.ok ())
     | some info =>
       if info.isReadonly then
         ({ s with warnings := s.warnings ++ [readonlyWarnMsg k] }, Res.ok ())
       else
         match iGet I info.target k s with
         | (s1, _oldValue) =>
           match iSet I info.target k v s1 with
           | (s2, Res.ok _) =>
             match srcOfVal info.target with
             | some t => iTrig I t k s2
             | none => (s2, Res.ok ())
           | (s2, Res.err e) => (s2, Res.err e))
  | _, _, _, s => (s, Res.ok ())

/-- One invocation of a runner (the `reactiveEffect` closure of
effect.ts): skip entirely if already on the stack; otherwise push self,
become the active effect, run the body, and in the `finally` pop the stack
and reinstate the new top (or none) as active.  The body's value is
discarded — `reactiveEffect` has no `return`, so a completed run yields
`undefined`.  Executions are recorded in the ghost `runLog`. -/
def runEffF (I : Interp) (e : Nat) (s : Engine) : Engine × Res Val :=
  if e ∈ s.effectStack then (s, Res.ok Val.undef)
  else
    match lookupA s.effs e with
    | none => (s, Res.ok Val.undef)
    | some d =>
      match iEval I d.body
          { s with effectStack := e :: s.effectStack, activeEffect := some e,
                   runLog := s.runLog ++ [e] } with
      | (s2, r) =>
        let rest := s2.effectStack.tail
        let s3 := { s2 with effectStack := rest, activeEffect := rest.head? }
        match r with
        | Res.ok _ => (s3, Res.ok Val.undef)
        | Res.err er => (s3, Res.err er)

/-- The `effects.forEach` loop of `trigger`: each snapshot member is
re-run through its scheduler when it has one, directly otherwise; a raised
exception aborts the loop and propagates. -/
def runEffListF (I : Interp) : List Nat → Engine → Engine × Res Unit
  | [], s => (s, Res.ok ())
  | e :: rest, s =>
    match lookupA s.effs e with
    | none => iRunList I rest s
    | some d =>
      match d.scheduler with
      | some sch =>
        match iSched I sch s with
        | (s1, Res.ok _) => iRunList I rest s1
        | (s1, Res.err er) => (s1, Res.err er)
      | none =>
        match iRun I e s with
        | (s1, Res.ok _) => iRunList I rest s1
        | (s1, Res.err er) => (s1, Res.err er)

/-- `trigger(target, type, key)`: take the snapshot (with self-trigger
suppression) and run it.  Every call site in the repository passes a
defined key, so the `key !== void 0` branch is always taken. -/
def triggerRunF (I : Interp) (t : Src) (k : String) (s : Engine) :
    Engine × Res Unit :=
  iRunList I (triggerTargets s t k) s

/-- The scheduler `ComputedRefImpl` installs: if the computed is clean,
mark it dirty and notify its own dependents; never recompute eagerly. -/
def schedRunF (I : Interp) : Sched → Engine → Engine × Res Unit
  | Sched.comp c, s =>
    match lookupA s.comps c with
    | none => (s, Res.ok ())
    | some st =>
      if st.dirty then (s, Res.ok ())
      else
        iTrig I (Src.comp c) "value"
          { s with comps := insertA s.comps c { st with dirty := true } }

/-- `ComputedRefImpl`'s `get value`: when dirty, clear the flag first and
assign the runner's result to `_value` (an exception leaves the flag
cleared and `_value` untouched, as in the source); then `track` the caller
and return `_value`. -/
def compGetVF (I : Interp) (c : Nat) (s : Engine) : Engine × Res Val :=
  match lookupA s.comps c with
  | none => (s, Res.ok Val.undef)
  | some st =>
    if st.dirty then
      match iRun I st.eff
          { s with comps := insertA s.comps c { st with dirty := false } } with
      | (s2, Res.ok v) =>
        (trackOp (Src.comp c) "value"
          { s2 with comps := insertA s2.comps c { st with dirty := false, value := v } },
         Res.ok v)
      | (s2, Res.err er) => (s2, Res.err er)
    else (trackOp (Src.comp c) "value" s, Res.ok st.value)

/-- `toRaw` of ref.js: follow `__v_raw` while it is truthy (reads on a
proxy go through its get trap). -/
def toRawValF (I : Interp) (v : Val) (s : Engine) : Engine × Val :=
  if truthy v then
    match iGet I v "__v_raw" s with
    | (s1, raw) => if truthy raw then iToRaw I raw s1 else (s1, v)
  else (s, v)

/-- `isShallow` of ref.js: `!!(value && value.__v_isShallow)`. -/
def isShallowValF (I : Interp) (v : Val) (s : Engine) : Engine × Bool :=
  if truthy v then
    match iGet I v "__v_isShallow" s with
    | (s1, x) => (s1, truthy x)
  else (s, false)

/-- `isReadonly` of ref.js: `!!(value && value.__v_isReadonly)`. -/
def isReadonlyValF (I : Interp) (v : Val) (s : Engine) : Engine × Bool :=
  if truthy v then
    match iGet I v "__v_isReadonly" s with
    | (s1, x) => (s1, truthy x)
  else (s, false)

/-- Lines 68-70 of ref.js's setter: decide whether the incoming value
bypasses conversion (`useDirectValue`) and unwrap it for comparison. -/
def refPrepF (I : Interp) (st : RefSt) (v : Val) (s : Engine) :
    Engine × (Bool × Val) :=
  match isShallowValF I v s with
  | (s1, sh) =>
    match isReadonlyValF I v s1 with
    | (s2, ro) =>
      let useDirect := st.shallow || sh || ro
      if useDirect then (s2, (true, v))
      else
        match iToRaw I v s2 with
        | (s3, nv) => (s3, (false, nv))

/-- `RefImpl`'s `set value`: prepare the incoming value, compare with the
stored raw value via `hasChanged` (negated `Object.is`), and when changed
store raw and displayed values and `trigger` dependents; otherwise do
nothing. -/
def refSetVF (I : Interp) (r : Nat) (v : Val) (s : Engine) :
    Engine × Res Unit :=
  match lookupA s.refs r with
  | none => (s, Res.ok ())
  | some st =>
    match refPrepF I st v s with
    | (s2, (useDirect, nv)) =>
      if sameVal nv st.rawValue then (s2, Res.ok ())
      else
        match (if useDirect then (s2, nv) else toReactiveVal nv s2) with
        | (s3, disp) =>
          iTrig I (Src.ref r) "value"
            { s3 with refs := insertA s3.refs r { st with rawValue := nv, value := disp } }

/-- `RefImpl`'s `get value`: `track` then return `_value`. -/
def refGetV (r : Nat) (s : Engine) : Engine × Val :=
  let s1 := trackOp (Src.ref r) "value" s
  match lookupA s1.refs r with
  | none => (s1, Val.undef)
  | some st => (s1, st.value)

/-- Evaluation of a computation body, one step. -/
def evalExpF (I : Interp) : Exp → Engine → Engine × Res Val
  | Exp.lit v, s => (s, Res.ok v)
  | Exp.seq a b, s =>
    (match iEval I a s with
     | (s1, Res.ok _) => iEval I b s1
     | (s1, Res.err er) => (s1, Res.err er))
  | Exp.add a b, s =>
    (match iEval I a s with
     | (s1, Res.ok va) =>
       (match iEval I b s1 with
        | (s2, Res.ok vb) => (s2, Res.ok (jsAdd va vb))
        | (s2, Res.err er) => (s2, Res.err er))
     | (s1, Res.err er) => (s1, Res.err er))
  | Exp.mul a b, s =>
    (match iEval I a s with
     | (s1, Res.ok va) =>
       (match iEval I b s1 with
        | (s2, Res.ok vb) => (s2, Res.ok (jsMul va vb))
        | (s2, Res.err er) => (s2, Res.err er))
     | (s1, Res.err er) => (s1, Res.err er))
  | Exp.throwE n, s => (s, Res.err (Err.user n))
  | Exp.refGetE r, s =>
    (match refGetV r s with
     | (s1, v) => (s1, Res.ok v))
  | Exp.refSetE r e, s =>
    (match iEval I e s with
     | (s1, Res.ok v) =>
       (match iRefSet I r v s1 with
        | (s2, Res.ok _) => (s2, Res.ok v)
        | (s2, Res.err er) => (s2, Res.err er))
     | (s1, Res.err er) => (s1, Res.err er))
  | Exp.propGetE t k, s =>
    (match iGet I t k s with
     | (s1, v) => (s1, Res.ok v))
  | Exp.propSetE t k e, s =>
    (match iEval I e s with
     | (s1, Res.ok v) =>
       (match iSet I t k v s1 with
        | (s2, Res.ok _) => (s2, Res.ok v)
        | (s2, Res.err er) => (s2, Res.err er))
     | (s1, Res.err er) => (s1, Res.err er))
  | Exp.compGetE c, s => iComp I c s

/-- Fuel-exhausted bundle. -/
def interpZ : Interp :=
  { evalExp := fun _ s => (s, Res.err Err.fuel),
    getField := fun _ _ s => (s, Val.undef),
    setField := fun _ _ _ s => (s, Res.err Err.fuel),
    runEff := fun _ s => (s, Res.err Err.fuel),
    runEffList := fun _ s => (s, Res.err Err.fuel),
    triggerRun := fun _ _ s => (s, Res.err Err.fuel),
    schedRun := fun _ s => (s, Res.err Err.fuel),
    compGetV := fun _ s => (s, Res.err Err.fuel),
    refSetV := fun _ _ s => (s, Res.err Err.fuel),
    toRawVal := fun v s => (s, v) }

/-- One fuel step of the whole engine. -/
def interpStep (I : Interp) : Interp :=
  { evalExp := evalExpF I,
    getField := getFieldF I,
    setField := setFieldF I,
    runEff := runEffF I,
    runEffList := runEffListF I,
    triggerRun := triggerRunF I,
    schedRun := schedRunF I,
    compGetV := compGetVF I,
    refSetV := refSetVF I,
    toRawVal := toRawValF I }

/-- The engine at fuel `n` (structural recursion on the fuel, so concrete
runs reduce inside the kernel). -/
def interp : Nat → Interp
  | 0 => interpZ
  | n + 1 => interpStep (interp n)

/-- `effect(fn, options)`: register the runner under a fresh uid; unless
`lazy`, invoke it once immediately (an exception during that first run
propagates out of `effect`). -/
def effectCreate (n : Nat) (body : Exp) (sched : Option Sched) (lazy : Bool)
    (s : Engine) : Engine × Res Nat :=
  let eid := s.nextEff
  let s1 := { s with effs := s.effs ++ [(eid, ⟨body, sched⟩)], nextEff := eid + 1 }
  if lazy then (s1, Res.ok eid)
  else
    match iRun (interp n) eid s1 with
    | (s2, Res.ok _) => (s2, Res.ok eid)
    | (s2, Res.err er) => (s2, Res.err er)

/-- `computed(getter)`: a `ComputedRefImpl` starts dirty with an unset
`_value` and owns a lazy internal effect whose scheduler is the
dirty-propagation closure. -/
def computedCreate (getter : Exp) (s : Engine) : Engine × Nat :=
  let cid := s.nextComp
  let eid := s.nextEff
  ({ s with
      comps := s.comps ++ [(cid, ⟨true, Val.undef, eid⟩)],
      nextComp := cid + 1,
      effs := s.effs ++ [(eid, ⟨getter, some (Sched.comp cid)⟩)],
      nextEff := eid + 1 },
    cid)

/-- `createRef`/`new RefImpl`: the `isRef` guard reads `__v_isRef` on the
incoming value (always `undefined`-ish in the modelled value space, since
no modelled value is the literal `true`); `_rawValue` is the unwrapped
value and `_value` the reactive-converted one unless shallow. -/
def refCreate (n : Nat) (v : Val) (shallow : Bool) (s : Engine) : Engine × Nat :=
  let s0 := if truthy v then (iGet (interp n) v "__v_isRef" s).1 else s
  let rid := s0.nextRef
  match (if shallow then (s0, v) else iToRaw (interp n) v s0) with
  | (s1, raw) =>
    match (if shallow then (s1, v) else toReactiveVal v s1) with
    | (s2, disp) =>
      ({ s2 with refs := s2.refs ++ [(rid, ⟨raw, disp, shallow⟩)], nextRef := rid + 1 },
        rid)

/-- Syntactic guard for computation bodies that do not read computed
values (every dependency-graph interaction of such a body goes through
plain objects and refs). -/
def noComp : Exp → Bool
  | Exp.lit _ => true
  | Exp.seq a b => noComp a && noComp b
  | Exp.add a b => noComp a && noComp b
  | Exp.mul a b => noComp a && noComp b
  | Exp.throwE _ => true
  | Exp.refGetE _ => true
  | Exp.refSetE _ e => noComp e
  | Exp.propGetE _ _ => true
  | Exp.propSetE _ _ e => noComp e
  | Exp.compGetE _ => false

/-- Every dependency set of the graph mentions only the effect `e`. -/
def DepsOnly (e : Nat) (s : Engine) : Prop :=
  ∀ t k l, depLookup s t k = some l → ∀ x ∈ l, x = e

/-- Every dependency set of the graph is duplicate-free (the invariant the
`dep.has(activeEffect)` check of `track` maintains). -/
def DepsNodup (s : Engine) : Prop :=
  ∀ t k l, depLookup s t k = some l → l.Nodup

/-- Relation between the states before and after evaluating inside a
single running effect `e` that is the only dependency-graph subscriber:
the run context is untouched, no effect executes, the registry is stable
and the graph still only mentions `e`. -/
structure EPost (e : Nat) (s s2 : Engine) : Prop where
  active : s2.activeEffect = s.activeEffect
  stack : s2.effectStack = s.effectStack
  runLog : s2.runLog = s.runLog
  effs : s2.effs = s.effs
  depsOnly : DepsOnly e s2
  nodup : DepsNodup s → DepsNodup s2
  proxMono : ∀ p i, lookupA s.proxies p = some i → lookupA s2.proxies p = some i

/-- Relation between the states before and after a pure read path
(property get, `toRaw`): only the proxy registry, the caches and the
dependency graph may change; heap, refs, computeds, effects, run context
and logs are untouched. -/
def GFrame (s2 s : Engine) : Prop :=
  s2.objs = s.objs ∧ s2.refs = s.refs ∧ s2.comps = s.comps ∧
  s2.effs = s.effs ∧ s2.activeEffect = s.activeEffect ∧
  s2.effectStack = s.effectStack ∧ s2.runLog = s.runLog ∧
  s2.warnings = s.warnings

/-- Witness state for the self-trigger suppression claim: some engine with
a running effect 7. -/
def c5wState : Engine := { emptyEngine with activeEffect := some 7 }

/-- The inductive invariant behind self-trigger suppression, at one fuel
level: evaluating a computed-free body (or any of the engine operations it
can reach) while `e` is active and `e` is the graph's only subscriber
executes no effect at all. -/
structure OnlyInv (e : Nat) (I : Interp) : Prop where
  evalExp : ∀ b s, noComp b = true → s.activeEffect = some e → DepsOnly e s →
    EPost e s (iEval I b s).1
  getField : ∀ v k s, s.activeEffect = some e → DepsOnly e s →
    EPost e s (iGet I v k s).1
  setField : ∀ v k w s, s.activeEffect = some e → DepsOnly e s →
    EPost e s (iSet I v k w s).1
  triggerRun : ∀ t k s, s.activeEffect = some e → DepsOnly e s →
    EPost e s (iTrig I t k s).1
  refSetV : ∀ r v s, s.activeEffect = some e → DepsOnly e s →
    EPost e s (iRefSet I r v s).1
  toRawVal : ∀ v s, s.activeEffect = some e → DepsOnly e s →
    EPost e s (iToRaw I v s).1
  runEffListNil : ∀ s, (iRunList I [] s).1 = s

/-- Invariant of the whole engine, at one fuel level: every operation
leaves `effectStack` as it found it (runners restore it in their
`finally`, everything else never touches it). -/
structure StackInv (I : Interp) : Prop where
  evalExp : ∀ b s, ((iEval I b s).1).effectStack = s.effectStack
  getField : ∀ v k s, ((iGet I v k s).1).effectStack = s.effectStack
  setField : ∀ v k w s, ((iSet I v k w s).1).effectStack = s.effectStack
  runEff : ∀ e s, ((iRun I e s).1).effectStack = s.effectStack
  runEffList : ∀ L s, ((iRunList I L s).1).effectStack = s.effectStack
  triggerRun : ∀ t k s, ((iTrig I t k s).1).effectStack = s.effectStack
  schedRun : ∀ c s, ((iSched I c s).1).effectStack = s.effectStack
  compGetV : ∀ c s, ((iComp I c s).1).effectStack = s.effectStack
  refSetV : ∀ r v s, ((iRefSet I r v s).1).effectStack = s.effectStack
  toRawVal : ∀ v s, ((iToRaw I v s).1).effectStack = s.effectStack

/-- Scenario for C1: `effect(() => 42)` — register and immediately run. -/
def c1Setup : Engine × Res Nat :=
  effectCreate 5 (Exp.lit (Val.num (JsNum.int 42))) none false emptyEngine

/-- Scenario for C2: `a = ref(1)`. -/
def c2A : Engine × Nat := refCreate 5 (Val.num (JsNum.int 1)) false emptyEngine

/-- Scenario for C2: `b = computed(() => a.value * 2)`. -/
def c2B : Engine × Nat :=
  computedCreate (Exp.mul (Exp.refGetE c2A.2) (Exp.lit (Val.num (JsNum.int 2)))) c2A.1

/-- Scenario for C2: `c = computed(() => b.value + 1)`. -/
def c2C : Engine × Nat :=
  computedCreate (Exp.add (Exp.compGetE c2B.2) (Exp.lit (Val.num (JsNum.int 1)))) c2B.1

/-- Scenario for C2: first read of `c.value`. -/
def c2Read1 : Engine × Res Val := iEval (interp 30) (Exp.compGetE c2C.2) c2C.1

/-- Scenario for C2: the write `a.value = 5`. -/
def c2Write : Engine × Res Val :=
  iEval (interp 30) (Exp.refSetE c2A.2 (Exp.lit (Val.num (JsNum.int 5)))) c2Read1.1

/-- Scenario for C2: second read of `c.value`. -/
def c2Read2 : Engine × Res Val := iEval (interp 30) (Exp.compGetE c2C.2) c2Write.1

/-- A heap with one raw object `0` holding `k : 1`, used by several
scenarios. -/
def objK1 : Engine :=
  { emptyEngine with objs := [(0, [("k", Val.num (JsNum.int 1))])] }

/-- The deep reactive wrapper of object `0`. -/
def wrapK1 : Engine × Val := reactiveF (Val.obj 0) objK1

/-- Scenario for C5: a computation that reads and then writes the same
tracked key through the wrapper. -/
def c5Run : Engine × Res Nat :=
  effectCreate 10
    (Exp.seq (Exp.propGetE wrapK1.2 "k")
      (Exp.propSetE wrapK1.2 "k" (Exp.lit (Val.num (JsNum.int 2)))))
    none false wrapK1.1

/-- Initial configuration for C6: a heap with one raw object and its deep
reactive wrapper. -/
def c6Init (o : Nat) (flds : List (String × Val)) : Engine × Val :=
  reactiveF (Val.obj o) { emptyEngine with objs := [(o, flds)] }

/-- The engine of `c6Init` spelled out (used to normalize proofs about the
creation phase). -/
def c6S0 (o : Nat) (flds : List (String × Val)) : Engine :=
  { objs := [(o, flds)], proxies := [(0, ⟨Val.obj o, false, false⟩)],
    reactiveMap := [(Val.obj o, 0)], readonlyMap := [], nextProxy := 1,
    refs := [], nextRef := 0, comps := [], nextComp := 0, effs := [],
    nextEff := 0, activeEffect := none, effectStack := [], targetMap := [],
    runLog := [], warnings := [] }

/-- `c6S0` after `effect` registers the runner 0. -/
def c6SReg (o : Nat) (flds : List (String × Val)) (body : Exp) : Engine :=
  { c6S0 o flds with effs := [(0, ⟨body, none⟩)], nextEff := 1 }

/-- `c6SReg` as the runner's body sees it during the creation run. -/
def c6Push (o : Nat) (flds : List (String × Val)) (body : Exp) : Engine :=
  { c6SReg o flds body with
      effectStack := [0], activeEffect := some 0, runLog := [0] }

/-- C6 witness data: a computation that reads `wrap(o).k` once. -/
def c6wBody : Exp := Exp.propGetE (c6Init 0 [("k", Val.num (JsNum.int 1))]).2 "k"

/-- C6 witness data: the state after creating (and first-running) the
effect. -/
def c6wCreate : Engine × Res Nat :=
  effectCreate 10 c6wBody none false (c6Init 0 [("k", Val.num (JsNum.int 1))]).1

def c6wS1 : Engine := c6wCreate.1

/-- C6 witness data: the later write `wrap(o).k = 2` outside any
computation. -/
def c6wWrite : Engine × Res Val :=
  iEval (interp 20)
    (Exp.propSetE (c6Init 0 [("k", Val.num (JsNum.int 1))]).2 "k"
      (Exp.lit (Val.num (JsNum.int 2)))) c6wS1

/-- Scenario for C7: `ref(NaN)` with one dependent computation. -/
def c7NaNRef : Engine × Nat := refCreate 5 (Val.num JsNum.nan) false emptyEngine

def c7NaNDep : Engine × Res Nat :=
  effectCreate 10 (Exp.refGetE c7NaNRef.2) none false c7NaNRef.1

/-- Scenario for C7: the write `ref.value = NaN` on a ref holding NaN. -/
def c7NaNWrite : Engine × Res Unit :=
  iRefSet (interp 20) c7NaNRef.2 (Val.num JsNum.nan) c7NaNDep.1

/-- Scenario for C7: `ref(0)` with one dependent computation. -/
def c7ZeroRef : Engine × Nat := refCreate 5 (Val.num (JsNum.int 0)) false emptyEngine

def c7ZeroDep : Engine × Res Nat :=
  effectCreate 10 (Exp.refGetE c7ZeroRef.2) none false c7ZeroRef.1

/-- Scenario for C7: the write `ref.value = -0` on a ref holding `+0`. -/
def c7ZeroWrite : Engine × Res Unit :=
  iRefSet (interp 20) c7ZeroRef.2 (Val.num JsNum.negZero) c7ZeroDep.1

/-- Scenario for C8: the deep read-only wrapper of object `0`. -/
def c8Wrap : Engine × Val := readonlyF (Val.obj 0) objK1

/-- Scenario for C8: attempted write through the read-only wrapper. -/
def c8Write : Engine × Res Unit :=
  iSet (interp 10) c8Wrap.2 "k" (Val.num (JsNum.int 9)) c8Wrap.1

/-- Scenario for C10: a deep ref living next to the proxy of `wrapK1`. -/
def c10Ref : Engine × Nat :=
  refCreate 5 (Val.num (JsNum.int 1)) false wrapK1.1

/-- Scenario for C10: writing the deep reactive proxy itself into the deep
ref. -/
def c10Write : Engine × Res Unit :=
  iRefSet (interp 10) c10Ref.2 (Val.proxy 0) c10Ref.1

/-- Scenario for C4 witness: an engine with one registered runner whose
body raises. -/
def c4S : Engine :=
  { emptyEngine with effs := [(0, ⟨Exp.throwE 7, none⟩)], nextEff := 1 }

/-- The state `c4S` as the raising body sees it (pushed, active, logged). -/
def c4Pushed : Engine :=
  { c4S with effectStack := [0], activeEffect := some 0, runLog := [0] }

theorem lookupA_append_some {α β : Type} [DecidableEq α] (l l2 : List (α × β))
    (k : α) (b : β) (h : lookupA l k = some b) : lookupA (l ++ l2) k = some b := by
  induction l with
  | nil => simp [lookupA] at h
  | cons hd t ih =>
    rcases hd with ⟨a, b2⟩
    by_cases hak : a = k
    · subst hak
      simp [lookupA] at h ⊢
      exact h
    · simp [lookupA, hak] at h ⊢
      exact ih h

theorem lookupA_append_single {α β : Type} [DecidableEq α] (l : List (α × β))
    (k : α) (v : β) (h : lookupA l k = none) :
    lookupA (l ++ [(k, v)]) k = some v := by
  induction l with
  | nil => simp [lookupA]
  | cons hd t ih =>
    rcases hd with ⟨a, b2⟩
    by_cases hak : a = k
    · subst hak; simp [lookupA] at h
    · simp [lookupA, hak] at h ⊢
      exact ih h

theorem lookupA_insertA_self {α β : Type} [DecidableEq α] (l : List (α × β))
    (k : α) (v : β) : lookupA (insertA l k v) k = some v := by
  induction l with
  | nil => simp [insertA, lookupA]
  | cons hd t ih =>
    rcases hd with ⟨a, b2⟩
    by_cases hak : a = k
    · subst hak; simp [insertA, lookupA]
    · simp [insertA, lookupA, hak]
      exact ih

theorem lookupA_insertA_ne {α β : Type} [DecidableEq α] (l : List (α × β))
    (k k2 : α) (v : β) (h : ¬ k = k2) :
    lookupA (insertA l k v) k2 = lookupA l k2 := by
  induction l with
  | nil => simp [insertA, lookupA, h]
  | cons hd t ih =>
    rcases hd with ⟨a, b2⟩
    by_cases hak : a = k
    · subst hak
      simp [insertA, lookupA, h]
    · simp [insertA, lookupA, hak]
      by_cases hak2 : a = k2 <;> simp [hak2, ih]

theorem EPost.same {e : Nat} {s : Engine} (hd : DepsOnly e s) : EPost e s s :=
  ⟨rfl, rfl, rfl, rfl, hd, fun h => h, fun _ _ h => h⟩

theorem EPost.trans {e : Nat} {s s2 s3 : Engine} (h1 : EPost e s s2)
    (h2 : EPost e s2 s3) : EPost e s s3 :=
  ⟨h2.active.trans h1.active, h2.stack.trans h1.stack, h2.runLog.trans h1.runLog,
   h2.effs.trans h1.effs, h2.depsOnly, fun h => h2.nodup (h1.nodup h),
   fun p i h => h2.proxMono p i (h1.proxMono p i h)⟩

/-- `trackOp` only rewrites `targetMap`. -/
theorem trackOp_frame (t : Src) (k : String) (s : Engine) :
    (trackOp t k s).objs = s.objs ∧ (trackOp t k s).proxies = s.proxies ∧
    (trackOp t k s).reactiveMap = s.reactiveMap ∧
    (trackOp t k s).readonlyMap = s.readonlyMap ∧
    (trackOp t k s).nextProxy = s.nextProxy ∧
    (trackOp t k s).refs = s.refs ∧ (trackOp t k s).comps = s.comps ∧
    (trackOp t k s).effs = s.effs ∧
    (trackOp t k s).activeEffect = s.activeEffect ∧
    (trackOp t k s).effectStack = s.effectStack ∧
    (trackOp t k s).runLog = s.runLog ∧ (trackOp t k s).warnings = s.warnings := by
  unfold trackOp
  rcases ha : s.activeEffect with _ | a
  · simp [ha]
  · simp only [ha]
    split <;> simp [ha]

theorem depLookup_eq_bind (s : Engine) (t : Src) (k : String) :
    depLookup s t k = (lookupA s.targetMap t).bind (fun dm => lookupA dm k) := by
  cases h : lookupA s.targetMap t <;> simp [depLookup, h]

/-- How the dependency sets look after `trackOp`: either unchanged, or the
tracked entry extended with the active effect it did not yet contain. -/
theorem depLookup_trackOp (t : Src) (k : String) (s : Engine) (t2 : Src)
    (k2 : String) :
    depLookup (trackOp t k s) t2 k2 = depLookup s t2 k2 ∨
    (∃ a, s.activeEffect = some a ∧
      (a ∈ ((depLookup s t k).getD []) → False) ∧
      depLookup (trackOp t k s) t2 k2 = some (((depLookup s t k).getD []) ++ [a])) := by
  have hdep :
      ((lookupA ((lookupA s.targetMap t).getD []) k).getD []) =
        ((depLookup s t k).getD []) := by
    cases htm : lookupA s.targetMap t <;> simp [depLookup, htm, lookupA]
  unfold trackOp
  rcases ha : s.activeEffect with _ | a
  · exact Or.inl rfl
  · simp only [ha]
    by_cases hmem :
        a ∈ ((lookupA ((lookupA s.targetMap t).getD []) k).getD [])
    · rw [if_pos hmem]
      exact Or.inl rfl
    · rw [if_neg hmem]
      by_cases ht2 : t2 = t
      · by_cases hk2 : k2 = k
        · refine Or.inr ⟨a, rfl, ?_, ?_⟩
          · rw [← hdep]; exact fun h => hmem h
          · rw [ht2, hk2, depLookup_eq_bind]
            dsimp only
            rw [lookupA_insertA_self]
            show lookupA _ k = _
            rw [lookupA_insertA_self, hdep]
        · refine Or.inl ?_
          rw [ht2, depLookup_eq_bind, depLookup_eq_bind]
          dsimp only
          rw [lookupA_insertA_self]
          show lookupA _ k2 = _
          rw [lookupA_insertA_ne _ _ _ _ (fun h => hk2 h.symm)]
          cases htm : lookupA s.targetMap t <;> simp [htm, lookupA]
      · refine Or.inl ?_
        rw [depLookup_eq_bind, depLookup_eq_bind]
        dsimp only
        rw [lookupA_insertA_ne _ _ _ _ (fun h => ht2 h.symm)]

theorem trackOp_depsOnly {e : Nat} (t : Src) (k : String) (s : Engine)
    (ha : s.activeEffect = some e) (h : DepsOnly e s) :
    DepsOnly e (trackOp t k s) := by
  intro t2 k2 l hl x hx
  rcases depLookup_trackOp t k s t2 k2 with hcase | ⟨a, haa, hnm, heq⟩
  · rw [hcase] at hl; exact h t2 k2 l hl x hx
  · rw [heq] at hl
    have haE : a = e := by rw [ha] at haa; exact (Option.some.inj haa).symm
    cases hl
    rcases List.mem_append.1 hx with hx1 | hx2
    · cases hdl : depLookup s t k with
      | none => rw [hdl] at hx1; simp at hx1
      | some l0 =>
        rw [hdl] at hx1
        exact h t k l0 hdl x hx1
    · simp at hx2; rw [hx2, haE]

theorem trackOp_nodup (t : Src) (k : String) (s : Engine) (h : DepsNodup s) :
    DepsNodup (trackOp t k s) := by
  intro t2 k2 l hl
  rcases depLookup_trackOp t k s t2 k2 with hcase | ⟨a, _, hnm, heq⟩
  · rw [hcase] at hl; exact h t2 k2 l hl
  · rw [heq] at hl
    cases hl
    cases hdl : depLookup s t k with
    | none => simp
    | some l0 =>
      rw [hdl] at hnm
      simp only [Option.getD_some] at hnm ⊢
      have hn0 : l0.Nodup := h t k l0 hdl
      simp [List.nodup_append, hn0]
      exact fun hmem => hnm hmem

/-- `createReactiveObj` only rewrites the proxy registry and the caches,
and only by appending. -/
theorem createReactiveObj_frame (t : Val) (ro sh : Bool) (s : Engine) :
    ((createReactiveObj t ro sh s).1).objs = s.objs ∧
    ((createReactiveObj t ro sh s).1).refs = s.refs ∧
    ((createReactiveObj t ro sh s).1).comps = s.comps ∧
    ((createReactiveObj t ro sh s).1).effs = s.effs ∧
    ((createReactiveObj t ro sh s).1).activeEffect = s.activeEffect ∧
    ((createReactiveObj t ro sh s).1).effectStack = s.effectStack ∧
    ((createReactiveObj t ro sh s).1).targetMap = s.targetMap ∧
    ((createReactiveObj t ro sh s).1).runLog = s.runLog ∧
    ((createReactiveObj t ro sh s).1).warnings = s.warnings ∧
    (∀ p i, lookupA s.proxies p = some i →
      lookupA ((createReactiveObj t ro sh s).1).proxies p = some i) := by
  unfold createReactiveObj
  by_cases hobj : isObjectV t = true
  · rw [if_pos hobj]
    cases hpm : lookupA (if ro then s.readonlyMap else s.reactiveMap) t
    · refine ⟨rfl, rfl, rfl, rfl, rfl, rfl, rfl, rfl, rfl, ?_⟩
      intro p i h
      exact lookupA_append_some _ _ _ _ h
    · exact ⟨rfl, rfl, rfl, rfl, rfl, rfl, rfl, rfl, rfl, fun p i h => h⟩
  · rw [if_neg hobj]
    exact ⟨rfl, rfl, rfl, rfl, rfl, rfl, rfl, rfl, rfl, fun p i h => h⟩

/-- `setObjField` only rewrites the raw-object heap. -/
theorem setObjField_frame (s : Engine) (o : Nat) (k : String) (v : Val) :
    (setObjField s o k v).proxies = s.proxies ∧
    (setObjField s o k v).refs = s.refs ∧
    (setObjField s o k v).comps = s.comps ∧
    (setObjField s o k v).effs = s.effs ∧
    (setObjField s o k v).activeEffect = s.activeEffect ∧
    (setObjField s o k v).effectStack = s.effectStack ∧
    (setObjField s o k v).targetMap = s.targetMap ∧
    (setObjField s o k v).runLog = s.runLog ∧
    (setObjField s o k v).warnings = s.warnings := by
  unfold setObjField
  cases lookupA s.objs o <;> simp

theorem stack_getFieldF (I : Interp) (h : StackInv I) (v : Val) (k : String)
    (s : Engine) : ((getFieldF I v k s).1).effectStack = s.effectStack := by
  cases v with
  | undef => rfl
  | num n => rfl
  | obj o => rfl
  | proxy p =>
    simp only [getFieldF]
    cases hp : lookupA s.proxies p with
    | none => rfl
    | some info =>
      dsimp only
      rcases hg : iGet I info.target k s with ⟨s1, res⟩
      dsimp only
      have h1 : s1.effectStack = s.effectStack := by
        have hx := h.getField info.target k s
        rw [hg] at hx
        exact hx
      have h2 :
          ((if info.isReadonly = true then s1
            else match srcOfVal info.target with
              | some t => trackOp t k s1
              | none => s1)).effectStack = s.effectStack := by
        split
        · exact h1
        · split
          · rw [(trackOp_frame _ _ _).2.2.2.2.2.2.2.2.2.1]
            exact h1
          · exact h1
      split
      · exact h2
      · split
        · rw [(createReactiveObj_frame _ _ _ _).2.2.2.2.2.1]
          exact h2
        · exact h2

theorem stack_toRawValF (I : Interp) (h : StackInv I) (v : Val) (s : Engine) :
    ((toRawValF I v s).1).effectStack = s.effectStack := by
  simp only [toRawValF]
  split
  · rcases hg : iGet I v "__v_raw" s with ⟨s1, raw⟩
    have h1 : s1.effectStack = s.effectStack := by
      have hx := h.getField v "__v_raw" s
      rw [hg] at hx
      exact hx
    dsimp only
    split
    · rw [h.toRawVal]
      exact h1
    · exact h1
  · rfl

theorem stack_setFieldF (I : Interp) (h : StackInv I) (v : Val) (k : String)
    (w : Val) (s : Engine) : ((setFieldF I v k w s).1).effectStack = s.effectStack := by
  cases v with
  | undef => rfl
  | num n => rfl
  | obj o => exact (setObjField_frame s o k w).2.2.2.2.2.1
  | proxy p =>
    simp only [setFieldF]
    cases hp : lookupA s.proxies p with
    | none => rfl
    | some info =>
      dsimp only
      split
      · rfl
      · rcases hg : iGet I info.target k s with ⟨s1, olv⟩
        have h1 : s1.effectStack = s.effectStack := by
          have hx := h.getField info.target k s
          rw [hg] at hx
          exact hx
        rcases hs : iSet I info.target k w s1 with ⟨s2, r2⟩
        have h2 : s2.effectStack = s1.effectStack := by
          have hx := h.setField info.target k w s1
          rw [hs] at hx
          exact hx
        cases r2 with
        | ok u =>
          dsimp only
          cases hsrc : srcOfVal info.target with
          | none => exact h2.trans h1
          | some t =>
            have hx := h.triggerRun t k s2
            rw [hx, h2, h1]
        | err er => exact h2.trans h1

theorem stack_runEffF (I : Interp) (h : StackInv I) (e : Nat) (s : Engine) :
    ((runEffF I e s).1).effectStack = s.effectStack := by
  simp only [runEffF]
  split
  · rfl
  · cases hd : lookupA s.effs e with
    | none => rfl
    | some d =>
      have hx := h.evalExp d.body
        { s with effectStack := e :: s.effectStack, activeEffect := some e,
                 runLog := s.runLog ++ [e] }
      dsimp only
      split
      · simp [hx]
      · simp [hx]

theorem stack_runEffListF (I : Interp) (h : StackInv I) (L : List Nat)
    (s : Engine) : ((runEffListF I L s).1).effectStack = s.effectStack := by
  cases L with
  | nil => rfl
  | cons e rest =>
    simp only [runEffListF]
    cases hd : lookupA s.effs e with
    | none => exact h.runEffList rest s
    | some d =>
      dsimp only
      cases hsch : d.scheduler with
      | some sch =>
        dsimp only
        rcases hs : iSched I sch s with ⟨s1, r1⟩
        have h1 : s1.effectStack = s.effectStack := by
          have hx := h.schedRun sch s
          rw [hs] at hx
          exact hx
        cases r1 with
        | ok u => rw [h.runEffList rest s1]; exact h1
        | err er => exact h1
      | none =>
        dsimp only
        rcases hs : iRun I e s with ⟨s1, r1⟩
        have h1 : s1.effectStack = s.effectStack := by
          have hx := h.runEff e s
          rw [hs] at hx
          exact hx
        cases r1 with
        | ok u => rw [h.runEffList rest s1]; exact h1
        | err er => exact h1

theorem stack_triggerRunF (I : Interp) (h : StackInv I) (t : Src) (k : String)
    (s : Engine) : ((triggerRunF I t k s).1).effectStack = s.effectStack :=
  h.runEffList (triggerTargets s t k) s

theorem stack_schedRunF (I : Interp) (h : StackInv I) (c : Sched) (s : Engine) :
    ((schedRunF I c s).1).effectStack = s.effectStack := by
  cases c with
  | comp cid =>
    simp only [schedRunF]
    cases hc : lookupA s.comps cid with
    | none => rfl
    | some st =>
      dsimp only
      split
      · rfl
      · exact h.triggerRun (Src.comp cid) "value" _

theorem stack_compGetVF (I : Interp) (h : StackInv I) (c : Nat) (s : Engine) :
    ((compGetVF I c s).1).effectStack = s.effectStack := by
  simp only [compGetVF]
  cases hc : lookupA s.comps c with
  | none => rfl
  | some st =>
    dsimp only
    split
    · rcases hr : iRun I st.eff
          { s with comps := insertA s.comps c { st with dirty := false } } with ⟨s2, r⟩
      have h2 : s2.effectStack = s.effectStack := by
        have hx := h.runEff st.eff
          { s with comps := insertA s.comps c { st with dirty := false } }
        rw [hr] at hx
        exact hx
      cases r with
      | ok v =>
        rw [(trackOp_frame _ _ _).2.2.2.2.2.2.2.2.2.1]
        exact h2
      | err er => exact h2
    · rw [(trackOp_frame _ _ _).2.2.2.2.2.2.2.2.2.1]

theorem stack_isShallowValF (I : Interp) (h : StackInv I) (v : Val)
    (s : Engine) : ((isShallowValF I v s).1).effectStack = s.effectStack := by
  simp only [isShallowValF]
  split
  · rcases hg : iGet I v "__v_isShallow" s with ⟨s1, x⟩
    dsimp only
    have hx := h.getField v "__v_isShallow" s
    rw [hg] at hx
    exact hx
  · rfl

theorem stack_isReadonlyValF (I : Interp) (h : StackInv I) (v : Val)
    (s : Engine) : ((isReadonlyValF I v s).1).effectStack = s.effectStack := by
  simp only [isReadonlyValF]
  split
  · rcases hg : iGet I v "__v_isReadonly" s with ⟨s1, x⟩
    dsimp only
    have hx := h.getField v "__v_isReadonly" s
    rw [hg] at hx
    exact hx
  · rfl

theorem stack_refPrepF (I : Interp) (h : StackInv I) (st : RefSt) (v : Val)
    (s : Engine) : ((refPrepF I st v s).1).effectStack = s.effectStack := by
  simp only [refPrepF]
  rcases hsh : isShallowValF I v s with ⟨s1, sh⟩
  have h1 : s1.effectStack = s.effectStack := by
    have hx := stack_isShallowValF I h v s
    rw [hsh] at hx
    exact hx
  dsimp only
  rcases hro : isReadonlyValF I v s1 with ⟨s2, ro⟩
  have h2 : s2.effectStack = s1.effectStack := by
    have hx := stack_isReadonlyValF I h v s1
    rw [hro] at hx
    exact hx
  dsimp only
  split
  · exact h2.trans h1
  · rcases htr : iToRaw I v s2 with ⟨s3, nv⟩
    have h3 : s3.effectStack = s2.effectStack := by
      have hx := h.toRawVal v s2
      rw [htr] at hx
      exact hx
    dsimp only
    exact h3.trans (h2.trans h1)

theorem stack_refSetVF (I : Interp) (h : StackInv I) (r : Nat) (v : Val)
    (s : Engine) : ((refSetVF I r v s).1).effectStack = s.effectStack := by
  simp only [refSetVF]
  cases hr : lookupA s.refs r with
  | none => rfl
  | some st =>
    dsimp only
    rcases hp : refPrepF I st v s with ⟨s2, useDirect, nv⟩
    have h2 : s2.effectStack = s.effectStack := by
      have hx := stack_refPrepF I h st v s
      rw [hp] at hx
      exact hx
    dsimp only
    split
    · exact h2
    · rcases hd : (if useDirect = true then (s2, nv) else toReactiveVal nv s2) with ⟨s3, disp⟩
      have h3 : s3.effectStack = s2.effectStack := by
        by_cases hud : useDirect = true
        · rw [if_pos hud] at hd
          cases hd
          rfl
        · rw [if_neg hud] at hd
          unfold toReactiveVal reactiveF at hd
          by_cases hio : isObjectV nv = true
          · rw [if_pos hio] at hd
            have hx := (createReactiveObj_frame nv false false s2).2.2.2.2.2.1
            rw [hd] at hx
            exact hx
          · rw [if_neg hio] at hd
            cases hd
            rfl
      have hx := h.triggerRun (Src.ref r) "value"
        { s3 with refs := insertA s3.refs r { st with rawValue := nv, value := disp } }
      rw [hx]
      exact h3.trans h2

theorem stack_refGetV (r : Nat) (s : Engine) :
    ((refGetV r s).1).effectStack = s.effectStack := by
  simp only [refGetV]
  cases lookupA (trackOp (Src.ref r) "value" s).refs r
  · exact (trackOp_frame _ _ _).2.2.2.2.2.2.2.2.2.1
  · exact (trackOp_frame _ _ _).2.2.2.2.2.2.2.2.2.1

theorem stack_evalExpF (I : Interp) (h : StackInv I) (b : Exp) (s : Engine) :
    ((evalExpF I b s).1).effectStack = s.effectStack := by
  cases b with
  | lit v => rfl
  | seq a b =>
    simp only [evalExpF]
    rcases ha : iEval I a s with ⟨s1, ra⟩
    have h1 : s1.effectStack = s.effectStack := by
      have hx := h.evalExp a s
      rw [ha] at hx
      exact hx
    cases ra with
    | ok v => rw [h.evalExp b s1]; exact h1
    | err er => exact h1
  | add a b =>
    simp only [evalExpF]
    rcases ha : iEval I a s with ⟨s1, ra⟩
    have h1 : s1.effectStack = s.effectStack := by
      have hx := h.evalExp a s
      rw [ha] at hx
      exact hx
    cases ra with
    | ok va =>
      dsimp only
      rcases hb : iEval I b s1 with ⟨s2, rb⟩
      have h2 : s2.effectStack = s1.effectStack := by
        have hx := h.evalExp b s1
        rw [hb] at hx
        exact hx
      cases rb with
      | ok vb =>
        dsimp only
        exact h2.trans h1
      | err er =>
        dsimp only
        exact h2.trans h1
    | err er => exact h1
  | mul a b =>
    simp only [evalExpF]
    rcases ha : iEval I a s with ⟨s1, ra⟩
    have h1 : s1.effectStack = s.effectStack := by
      have hx := h.evalExp a s
      rw [ha] at hx
      exact hx
    cases ra with
    | ok va =>
      dsimp only
      rcases hb : iEval I b s1 with ⟨s2, rb⟩
      have h2 : s2.effectStack = s1.effectStack := by
        have hx := h.evalExp b s1
        rw [hb] at hx
        exact hx
      cases rb with
      | ok vb =>
        dsimp only
        exact h2.trans h1
      | err er =>
        dsimp only
        exact h2.trans h1
    | err er => exact h1
  | throwE n => rfl
  | refGetE r =>
    simp only [evalExpF]
    rcases hg : refGetV r s with ⟨s1, v⟩
    have hx := stack_refGetV r s
    rw [hg] at hx
    exact hx
  | refSetE r e =>
    simp only [evalExpF]
    rcases ha : iEval I e s with ⟨s1, ra⟩
    have h1 : s1.effectStack = s.effectStack := by
      have hx := h.evalExp e s
      rw [ha] at hx
      exact hx
    cases ra with
    | ok v =>
      dsimp only
      rcases hb : iRefSet I r v s1 with ⟨s2, rb⟩
      have h2 : s2.effectStack = s1.effectStack := by
        have hx := h.refSetV r v s1
        rw [hb] at hx
        exact hx
      cases rb with
      | ok u => exact h2.trans h1
      | err er => exact h2.trans h1
    | err er => exact h1
  | propGetE t k =>
    simp only [evalExpF]
    rcases hg : iGet I t k s with ⟨s1, v⟩
    have hx := h.getField t k s
    rw [hg] at hx
    exact hx
  | propSetE t k e =>
    simp only [evalExpF]
    rcases ha : iEval I e s with ⟨s1, ra⟩
    have h1 : s1.effectStack = s.effectStack := by
      have hx := h.evalExp e s
      rw [ha] at hx
      exact hx
    cases ra with
    | ok v =>
      dsimp only
      rcases hb : iSet I t k v s1 with ⟨s2, rb⟩
      have h2 : s2.effectStack = s1.effectStack := by
        have hx := h.setField t k v s1
        rw [hb] at hx
        exact hx
      cases rb with
      | ok u => exact h2.trans h1
      | err er => exact h2.trans h1
    | err er => exact h1
  | compGetE c => exact h.compGetV c s

theorem stackInv_step (I : Interp) (h : StackInv I) : StackInv (interpStep I) :=
  ⟨stack_evalExpF I h, stack_getFieldF I h, stack_setFieldF I h,
   stack_runEffF I h, stack_runEffListF I h, stack_triggerRunF I h,
   stack_schedRunF I h, stack_compGetVF I h, stack_refSetVF I h,
   stack_toRawValF I h⟩

theorem stackInv_zero : StackInv interpZ :=
  ⟨fun _ _ => rfl, fun _ _ _ => rfl, fun _ _ _ _ => rfl, fun _ _ => rfl,
   fun _ _ => rfl, fun _ _ _ => rfl, fun _ _ => rfl, fun _ _ => rfl,
   fun _ _ _ => rfl, fun _ _ => rfl⟩

/-- Every engine operation leaves the effect stack as it found it, at
every fuel level. -/
theorem stackInv_all (n : Nat) : StackInv (interp n) := by
  induction n with
  | zero => exact stackInv_zero
  | succ m ih => exact stackInv_step (interp m) ih

theorem depLookup_congr {s s2 : Engine} (h : s2.targetMap = s.targetMap)
    (t : Src) (k : String) : depLookup s2 t k = depLookup s t k := by
  simp [depLookup, h]

theorem depsOnly_congr {e : Nat} {s s2 : Engine} (h : s2.targetMap = s.targetMap)
    (hd : DepsOnly e s) : DepsOnly e s2 := by
  intro t k l hl
  rw [depLookup_congr h] at hl
  exact hd t k l hl

theorem depsNodup_congr {s s2 : Engine} (h : s2.targetMap = s.targetMap)
    (hd : DepsNodup s) : DepsNodup s2 := by
  intro t k l hl
  rw [depLookup_congr h] at hl
  exact hd t k l hl

theorem epost_build {e : Nat} {s s2 : Engine} (h1 : s2.activeEffect = s.activeEffect)
    (h2 : s2.effectStack = s.effectStack) (h3 : s2.runLog = s.runLog)
    (h4 : s2.effs = s.effs) (h5 : s2.targetMap = s.targetMap)
    (hp : ∀ p i, lookupA s.proxies p = some i → lookupA s2.proxies p = some i)
    (hd : DepsOnly e s) : EPost e s s2 :=
  ⟨h1, h2, h3, h4, depsOnly_congr h5 hd, fun hn => depsNodup_congr h5 hn, hp⟩

theorem epost_trackOp {e : Nat} (t : Src) (k : String) {s : Engine}
    (ha : s.activeEffect = some e) (hd : DepsOnly e s) :
    EPost e s (trackOp t k s) :=
  ⟨(trackOp_frame t k s).2.2.2.2.2.2.2.2.1,
   (trackOp_frame t k s).2.2.2.2.2.2.2.2.2.1,
   (trackOp_frame t k s).2.2.2.2.2.2.2.2.2.2.1,
   (trackOp_frame t k s).2.2.2.2.2.2.2.1,
   trackOp_depsOnly t k s ha hd,
   fun hn => trackOp_nodup t k s hn,
   fun p i h => by rw [(trackOp_frame t k s).2.1]; exact h⟩

theorem epost_createReactiveObj {e : Nat} (t : Val) (ro sh : Bool) {s : Engine}
    (hd : DepsOnly e s) : EPost e s (createReactiveObj t ro sh s).1 :=
  epost_build (createReactiveObj_frame t ro sh s).2.2.2.2.1
    (createReactiveObj_frame t ro sh s).2.2.2.2.2.1
    (createReactiveObj_frame t ro sh s).2.2.2.2.2.2.2.1
    (createReactiveObj_frame t ro sh s).2.2.2.1
    (createReactiveObj_frame t ro sh s).2.2.2.2.2.2.1
    (createReactiveObj_frame t ro sh s).2.2.2.2.2.2.2.2.2 hd

theorem epost_setObjField {e : Nat} (o : Nat) (k : String) (v : Val) {s : Engine}
    (hd : DepsOnly e s) : EPost e s (setObjField s o k v) :=
  epost_build (setObjField_frame s o k v).2.2.2.2.1
    (setObjField_frame s o k v).2.2.2.2.2.1
    (setObjField_frame s o k v).2.2.2.2.2.2.2.1
    (setObjField_frame s o k v).2.2.2.1
    (setObjField_frame s o k v).2.2.2.2.2.2.1
    (fun p i h => by rw [(setObjField_frame s o k v).1]; exact h) hd

/-- Under self-trigger suppression, a `trigger` fired while `e` is active
in a graph whose sets only mention `e` selects nobody. -/
theorem triggerTargets_nil {e : Nat} (s : Engine) (t : Src) (k : String)
    (ha : s.activeEffect = some e) (hd : DepsOnly e s) :
    triggerTargets s t k = [] := by
  unfold triggerTargets
  cases htm : lookupA s.targetMap t with
  | none => rfl
  | some dm =>
    dsimp only
    cases hdm : lookupA dm k with
    | none => rfl
    | some dep =>
      have hdl : depLookup s t k = some dep := by simp [depLookup, htm, hdm]
      dsimp only
      rw [List.filter_eq_nil_iff]
      intro a hadep
      have hae : a = e := hd t k dep hdl a hadep
      rw [ha, hae]
      simp

theorem only_getFieldF {e : Nat} (I : Interp) (h : OnlyInv e I) (v : Val)
    (k : String) (s : Engine) (ha : s.activeEffect = some e)
    (hd : DepsOnly e s) : EPost e s ((getFieldF I v k s).1) := by
  cases v with
  | undef => exact EPost.same hd
  | num n => exact EPost.same hd
  | obj o => exact EPost.same hd
  | proxy p =>
    simp only [getFieldF]
    cases hp : lookupA s.proxies p with
    | none => exact EPost.same hd
    | some info =>
      dsimp only
      rcases hg : iGet I info.target k s with ⟨s1, res⟩
      have P1 : EPost e s s1 := by
        have hx := h.getField info.target k s ha hd
        rw [hg] at hx
        exact hx
      have ha1 : s1.activeEffect = some e := by rw [P1.active, ha]
      have P2 : EPost e s
          (if info.isReadonly = true then s1
           else match srcOfVal info.target with
             | some t => trackOp t k s1
             | none => s1) := by
        split
        · exact P1
        · split
          · exact P1.trans (epost_trackOp _ _ ha1 P1.depsOnly)
          · exact P1
      split
      · exact P2
      · split
        · exact P2.trans (epost_createReactiveObj _ _ _ P2.depsOnly)
        · exact P2

theorem only_toRawValF {e : Nat} (I : Interp) (h : OnlyInv e I) (v : Val)
    (s : Engine) (ha : s.activeEffect = some e) (hd : DepsOnly e s) :
    EPost e s ((toRawValF I v s).1) := by
  simp only [toRawValF]
  split
  · rcases hg : iGet I v "__v_raw" s with ⟨s1, raw⟩
    have P1 : EPost e s s1 := by
      have hx := h.getField v "__v_raw" s ha hd
      rw [hg] at hx
      exact hx
    have ha1 : s1.activeEffect = some e := by rw [P1.active, ha]
    dsimp only
    split
    · exact P1.trans (h.toRawVal raw s1 ha1 P1.depsOnly)
    · exact P1
  · exact EPost.same hd

theorem only_isShallowValF {e : Nat} (I : Interp) (h : OnlyInv e I) (v : Val)
    (s : Engine) (ha : s.activeEffect = some e) (hd : DepsOnly e s) :
    EPost e s ((isShallowValF I v s).1) := by
  simp only [isShallowValF]
  split
  · rcases hg : iGet I v "__v_isShallow" s with ⟨s1, x⟩
    dsimp only
    have hx := h.getField v "__v_isShallow" s ha hd
    rw [hg] at hx
    exact hx
  · exact EPost.same hd

theorem only_isReadonlyValF {e : Nat} (I : Interp) (h : OnlyInv e I) (v : Val)
    (s : Engine) (ha : s.activeEffect = some e) (hd : DepsOnly e s) :
    EPost e s ((isReadonlyValF I v s).1) := by
  simp only [isReadonlyValF]
  split
  · rcases hg : iGet I v "__v_isReadonly" s with ⟨s1, x⟩
    dsimp only
    have hx := h.getField v "__v_isReadonly" s ha hd
    rw [hg] at hx
    exact hx
  · exact EPost.same hd

theorem only_refPrepF {e : Nat} (I : Interp) (h : OnlyInv e I) (st : RefSt)
    (v : Val) (s : Engine) (ha : s.activeEffect = some e) (hd : DepsOnly e s) :
    EPost e s ((refPrepF I st v s).1) := by
  simp only [refPrepF]
  rcases hsh : isShallowValF I v s with ⟨s1, sh⟩
  have P1 : EPost e s s1 := by
    have hx := only_isShallowValF I h v s ha hd
    rw [hsh] at hx
    exact hx
  have ha1 : s1.activeEffect = some e := by rw [P1.active, ha]
  dsimp only
  rcases hro : isReadonlyValF I v s1 with ⟨s2, ro⟩
  have P2 : EPost e s s2 := by
    have hx := only_isReadonlyValF I h v s1 ha1 P1.depsOnly
    rw [hro] at hx
    exact P1.trans hx
  have ha2 : s2.activeEffect = some e := by rw [P2.active, ha]
  dsimp only
  split
  · exact P2
  · rcases htr : iToRaw I v s2 with ⟨s3, nv⟩
    have P3 : EPost e s2 s3 := by
      have hx := h.toRawVal v s2 ha2 P2.depsOnly
      rw [htr] at hx
      exact hx
    dsimp only
    exact P2.trans P3

theorem only_triggerRunF {e : Nat} (I : Interp) (h : OnlyInv e I) (t : Src)
    (k : String) (s : Engine) (ha : s.activeEffect = some e)
    (hd : DepsOnly e s) : EPost e s ((triggerRunF I t k s).1) := by
  unfold triggerRunF
  rw [triggerTargets_nil s t k ha hd, h.runEffListNil s]
  exact EPost.same hd

theorem only_setFieldF {e : Nat} (I : Interp) (h : OnlyInv e I) (v : Val)
    (k : String) (w : Val) (s : Engine) (ha : s.activeEffect = some e)
    (hd : DepsOnly e s) : EPost e s ((setFieldF I v k w s).1) := by
  cases v with
  | undef => exact EPost.same hd
  | num n => exact EPost.same hd
  | obj o => exact epost_setObjField o k w hd
  | proxy p =>
    simp only [setFieldF]
    cases hp : lookupA s.proxies p with
    | none => exact EPost.same hd
    | some info =>
      dsimp only
      split
      · exact epost_build rfl rfl rfl rfl rfl (fun _ _ hh => hh) hd
      · rcases hg : iGet I info.target k s with ⟨s1, olv⟩
        have P1 : EPost e s s1 := by
          have hx := h.getField info.target k s ha hd
          rw [hg] at hx
          exact hx
        have ha1 : s1.activeEffect = some e := by rw [P1.active, ha]
        rcases hs : iSet I info.target k w s1 with ⟨s2, r2⟩
        have P2 : EPost e s s2 := by
          have hx := h.setField info.target k w s1 ha1 P1.depsOnly
          rw [hs] at hx
          exact P1.trans hx
        have ha2 : s2.activeEffect = some e := by rw [P2.active, ha]
        cases r2 with
        | ok u =>
          dsimp only
          cases hsrc : srcOfVal info.target with
          | none => exact P2
          | some t =>
            have hx := h.triggerRun t k s2 ha2 P2.depsOnly
            exact P2.trans hx
        | err er => exact P2

theorem only_refSetVF {e : Nat} (I : Interp) (h : OnlyInv e I) (r : Nat)
    (v : Val) (s : Engine) (ha : s.activeEffect = some e)
    (hd : DepsOnly e s) : EPost e s ((refSetVF I r v s).1) := by
  simp only [refSetVF]
  cases hr : lookupA s.refs r with
  | none => exact EPost.same hd
  | some st =>
    dsimp only
    rcases hp : refPrepF I st v s with ⟨s2, useDirect, nv⟩
    have P2 : EPost e s s2 := by
      have hx := only_refPrepF I h st v s ha hd
      rw [hp] at hx
      exact hx
    have ha2 : s2.activeEffect = some e := by rw [P2.active, ha]
    dsimp only
    split
    · exact P2
    · rcases hds : (if useDirect = true then (s2, nv) else toReactiveVal nv s2) with ⟨s3, disp⟩
      have P3 : EPost e s2 s3 := by
        by_cases hud : useDirect = true
        · rw [if_pos hud] at hds
          cases hds
          exact EPost.same P2.depsOnly
        · rw [if_neg hud] at hds
          unfold toReactiveVal reactiveF at hds
          by_cases hio : isObjectV nv = true
          · rw [if_pos hio] at hds
            have hx := epost_createReactiveObj (e := e) nv false false P2.depsOnly
            rw [hds] at hx
            exact hx
          · rw [if_neg hio] at hds
            cases hds
            exact EPost.same P2.depsOnly
      have ha3 : s3.activeEffect = some e := by rw [P3.active, ha2]
      have P4 : EPost e s3
          { s3 with refs := insertA s3.refs r { st with rawValue := nv, value := disp } } :=
        epost_build rfl rfl rfl rfl rfl (fun _ _ hh => hh) P3.depsOnly
      have ha4 : ({ s3 with refs := insertA s3.refs r { st with rawValue := nv, value := disp } } : Engine).activeEffect = some e := ha3
      have P5 := h.triggerRun (Src.ref r) "value"
        { s3 with refs := insertA s3.refs r { st with rawValue := nv, value := disp } }
        ha4 P4.depsOnly
      exact ((P2.trans P3).trans P4).trans P5

theorem only_refGetV {e : Nat} (r : Nat) (s : Engine)
    (ha : s.activeEffect = some e) (hd : DepsOnly e s) :
    EPost e s ((refGetV r s).1) := by
  simp only [refGetV]
  cases lookupA (trackOp (Src.ref r) "value" s).refs r
  · exact epost_trackOp _ _ ha hd
  · exact epost_trackOp _ _ ha hd

theorem only_evalExpF {e : Nat} (I : Interp) (h : OnlyInv e I) (b : Exp)
    (s : Engine) (hb : noComp b = true) (ha : s.activeEffect = some e)
    (hd : DepsOnly e s) : EPost e s ((evalExpF I b s).1) := by
  cases b with
  | lit v => exact EPost.same hd
  | seq a b =>
    simp only [noComp, Bool.and_eq_true] at hb
    simp only [evalExpF]
    rcases hea : iEval I a s with ⟨s1, ra⟩
    have P1 : EPost e s s1 := by
      have hx := h.evalExp a s hb.1 ha hd
      rw [hea] at hx
      exact hx
    have ha1 : s1.activeEffect = some e := by rw [P1.active, ha]
    cases ra with
    | ok v => exact P1.trans (h.evalExp b s1 hb.2 ha1 P1.depsOnly)
    | err er => exact P1
  | add a b =>
    simp only [noComp, Bool.and_eq_true] at hb
    simp only [evalExpF]
    rcases hea : iEval I a s with ⟨s1, ra⟩
    have P1 : EPost e s s1 := by
      have hx := h.evalExp a s hb.1 ha hd
      rw [hea] at hx
      exact hx
    have ha1 : s1.activeEffect = some e := by rw [P1.active, ha]
    cases ra with
    | ok va =>
      dsimp only
      rcases heb : iEval I b s1 with ⟨s2, rb⟩
      have P2 : EPost e s s2 := by
        have hx := h.evalExp b s1 hb.2 ha1 P1.depsOnly
        rw [heb] at hx
        exact P1.trans hx
      cases rb with
      | ok vb => exact P2
      | err er => exact P2
    | err er => exact P1
  | mul a b =>
    simp only [noComp, Bool.and_eq_true] at hb
    simp only [evalExpF]
    rcases hea : iEval I a s with ⟨s1, ra⟩
    have P1 : EPost e s s1 := by
      have hx := h.evalExp a s hb.1 ha hd
      rw [hea] at hx
      exact hx
    have ha1 : s1.activeEffect = some e := by rw [P1.active, ha]
    cases ra with
    | ok va =>
      dsimp only
      rcases heb : iEval I b s1 with ⟨s2, rb⟩
      have P2 : EPost e s s2 := by
        have hx := h.evalExp b s1 hb.2 ha1 P1.depsOnly
        rw [heb] at hx
        exact P1.trans hx
      cases rb with
      | ok vb => exact P2
      | err er => exact P2
    | err er => exact P1
  | throwE n => exact EPost.same hd
  | refGetE r =>
    simp only [evalExpF]
    rcases hg : refGetV r s with ⟨s1, v⟩
    have hx := only_refGetV (e := e) r s ha hd
    rw [hg] at hx
    exact hx
  | refSetE r ex =>
    simp only [noComp] at hb
    simp only [evalExpF]
    rcases hea : iEval I ex s with ⟨s1, ra⟩
    have P1 : EPost e s s1 := by
      have hx := h.evalExp ex s hb ha hd
      rw [hea] at hx
      exact hx
    have ha1 : s1.activeEffect = some e := by rw [P1.active, ha]
    cases ra with
    | ok v =>
      dsimp only
      rcases hrs : iRefSet I r v s1 with ⟨s2, rb⟩
      have P2 : EPost e s s2 := by
        have hx := h.refSetV r v s1 ha1 P1.depsOnly
        rw [hrs] at hx
        exact P1.trans hx
      cases rb with
      | ok u => exact P2
      | err er => exact P2
    | err er => exact P1
  | propGetE t k =>
    simp only [evalExpF]
    rcases hg : iGet I t k s with ⟨s1, v⟩
    have hx := h.getField t k s ha hd
    rw [hg] at hx
    exact hx
  | propSetE t k ex =>
    simp only [noComp] at hb
    simp only [evalExpF]
    rcases hea : iEval I ex s with ⟨s1, ra⟩
    have P1 : EPost e s s1 := by
      have hx := h.evalExp ex s hb ha hd
      rw [hea] at hx
      exact hx
    have ha1 : s1.activeEffect = some e := by rw [P1.active, ha]
    cases ra with
    | ok v =>
      dsimp only
      rcases hst : iSet I t k v s1 with ⟨s2, rb⟩
      have P2 : EPost e s s2 := by
        have hx := h.setField t k v s1 ha1 P1.depsOnly
        rw [hst] at hx
        exact P1.trans hx
      cases rb with
      | ok u => exact P2
      | err er => exact P2
    | err er => exact P1
  | compGetE c => simp [noComp] at hb

theorem onlyInv_step {e : Nat} (I : Interp) (h : OnlyInv e I) :
    OnlyInv e (interpStep I) :=
  ⟨fun b s hb ha hd => only_evalExpF I h b s hb ha hd,
   fun v k s ha hd => only_getFieldF I h v k s ha hd,
   fun v k w s ha hd => only_setFieldF I h v k w s ha hd,
   fun t k s ha hd => only_triggerRunF I h t k s ha hd,
   fun r v s ha hd => only_refSetVF I h r v s ha hd,
   fun v s ha hd => only_toRawValF I h v s ha hd,
   fun _ => rfl⟩

theorem onlyInv_zero (e : Nat) : OnlyInv e interpZ :=
  ⟨fun _ s _ _ hd => EPost.same hd, fun _ _ s _ hd => EPost.same hd,
   fun _ _ _ s _ hd => EPost.same hd, fun _ _ s _ hd => EPost.same hd,
   fun _ _ s _ hd => EPost.same hd, fun _ s _ hd => EPost.same hd,
   fun _ => rfl⟩

/-- At every fuel level: while an effect `e` is running as the only
subscriber of the graph (a computed-free body), nothing else executes and
the graph keeps mentioning only `e`. -/
theorem onlyInv_all (e n : Nat) : OnlyInv e (interp n) := by
  induction n with
  | zero => exact onlyInv_zero e
  | succ m ih => exact onlyInv_step (interp m) ih

theorem GFrame.ofEq (s : Engine) : GFrame s s :=
  ⟨rfl, rfl, rfl, rfl, rfl, rfl, rfl, rfl⟩

theorem GFrame.comp {s1 s2 s3 : Engine} (h1 : GFrame s2 s1)
    (h2 : GFrame s3 s2) : GFrame s3 s1 :=
  ⟨h2.1.trans h1.1, h2.2.1.trans h1.2.1, h2.2.2.1.trans h1.2.2.1,
   h2.2.2.2.1.trans h1.2.2.2.1, h2.2.2.2.2.1.trans h1.2.2.2.2.1,
   h2.2.2.2.2.2.1.trans h1.2.2.2.2.2.1,
   h2.2.2.2.2.2.2.1.trans h1.2.2.2.2.2.2.1,
   h2.2.2.2.2.2.2.2.trans h1.2.2.2.2.2.2.2⟩

theorem gframe_trackOp (t : Src) (k : String) (s : Engine) :
    GFrame (trackOp t k s) s :=
  ⟨(trackOp_frame t k s).1, (trackOp_frame t k s).2.2.2.2.2.1,
   (trackOp_frame t k s).2.2.2.2.2.2.1, (trackOp_frame t k s).2.2.2.2.2.2.2.1,
   (trackOp_frame t k s).2.2.2.2.2.2.2.2.1,
   (trackOp_frame t k s).2.2.2.2.2.2.2.2.2.1,
   (trackOp_frame t k s).2.2.2.2.2.2.2.2.2.2.1,
   (trackOp_frame t k s).2.2.2.2.2.2.2.2.2.2.2⟩

theorem gframe_createReactiveObj (t : Val) (ro sh : Bool) (s : Engine) :
    GFrame ((createReactiveObj t ro sh s).1) s :=
  ⟨(createReactiveObj_frame t ro sh s).1, (createReactiveObj_frame t ro sh s).2.1,
   (createReactiveObj_frame t ro sh s).2.2.1,
   (createReactiveObj_frame t ro sh s).2.2.2.1,
   (createReactiveObj_frame t ro sh s).2.2.2.2.1,
   (createReactiveObj_frame t ro sh s).2.2.2.2.2.1,
   (createReactiveObj_frame t ro sh s).2.2.2.2.2.2.2.1,
   (createReactiveObj_frame t ro sh s).2.2.2.2.2.2.2.2.1⟩

/-- The read paths (`getField`, `toRaw`) never touch heap, refs,
computeds, effects, run context or logs, at every fuel level. -/
theorem gframe_get_toRaw (n : Nat) :
    (∀ v k s, GFrame ((iGet (interp n) v k s).1) s) ∧
    (∀ v s, GFrame ((iToRaw (interp n) v s).1) s) := by
  induction n with
  | zero =>
    constructor
    · intro v k s; exact GFrame.ofEq s
    · intro v s; exact GFrame.ofEq s
  | succ m ih =>
    constructor
    · intro v k s
      show GFrame ((getFieldF (interp m) v k s).1) s
      cases v with
      | undef => exact GFrame.ofEq s
      | num nn => exact GFrame.ofEq s
      | obj o => exact GFrame.ofEq s
      | proxy p =>
        simp only [getFieldF]
        cases hp : lookupA s.proxies p with
        | none => exact GFrame.ofEq s
        | some info =>
          dsimp only
          rcases hg : iGet (interp m) info.target k s with ⟨s1, res⟩
          have F1 : GFrame s1 s := by
            have hx := ih.1 info.target k s
            rw [hg] at hx
            exact hx
          have F2 : GFrame
              (if info.isReadonly = true then s1
               else match srcOfVal info.target with
                 | some t => trackOp t k s1
                 | none => s1) s := by
            split
            · exact F1
            · split
              · exact F1.comp (gframe_trackOp _ _ _)
              · exact F1
          split
          · exact F2
          · split
            · exact F2.comp (gframe_createReactiveObj _ _ _ _)
            · exact F2
    · intro v s
      show GFrame ((toRawValF (interp m) v s).1) s
      simp only [toRawValF]
      split
      · rcases hg : iGet (interp m) v "__v_raw" s with ⟨s1, raw⟩
        have F1 : GFrame s1 s := by
          have hx := ih.1 v "__v_raw" s
          rw [hg] at hx
          exact hx
        dsimp only
        split
        · exact F1.comp (ih.2 raw s1)
        · exact F1
      · exact GFrame.ofEq s

theorem gframe_isShallowValF (n : Nat) (v : Val) (s : Engine) :
    GFrame ((isShallowValF (interp n) v s).1) s := by
  simp only [isShallowValF]
  split
  · rcases hg : iGet (interp n) v "__v_isShallow" s with ⟨s1, x⟩
    dsimp only
    have hx := (gframe_get_toRaw n).1 v "__v_isShallow" s
    rw [hg] at hx
    exact hx
  · exact GFrame.ofEq s

theorem gframe_isReadonlyValF (n : Nat) (v : Val) (s : Engine) :
    GFrame ((isReadonlyValF (interp n) v s).1) s := by
  simp only [isReadonlyValF]
  split
  · rcases hg : iGet (interp n) v "__v_isReadonly" s with ⟨s1, x⟩
    dsimp only
    have hx := (gframe_get_toRaw n).1 v "__v_isReadonly" s
    rw [hg] at hx
    exact hx
  · exact GFrame.ofEq s

/-- Preparing a ref write (lines 68-70 of ref.js) only reads. -/
theorem gframe_refPrepF (n : Nat) (st : RefSt) (v : Val) (s : Engine) :
    GFrame ((refPrepF (interp n) st v s).1) s := by
  simp only [refPrepF]
  rcases hsh : isShallowValF (interp n) v s with ⟨s1, sh⟩
  have F1 : GFrame s1 s := by
    have hx := gframe_isShallowValF n v s
    rw [hsh] at hx
    exact hx
  dsimp only
  rcases hro : isReadonlyValF (interp n) v s1 with ⟨s2, ro⟩
  have F2 : GFrame s2 s := by
    have hx := gframe_isReadonlyValF n v s1
    rw [hro] at hx
    exact F1.comp hx
  dsimp only
  split
  · exact F2
  · rcases htr : iToRaw (interp n) v s2 with ⟨s3, nv⟩
    have F3 : GFrame s3 s2 := by
      have hx := (gframe_get_toRaw n).2 v s2
      rw [htr] at hx
      exact hx
    dsimp only
    exact F2.comp F3

/-- `createReactiveObj` on a fresh target of its family cache: creates and
registers the proxy `s.nextProxy` with the requested handler flags. -/
theorem createReactiveObj_fresh (t : Val) (ro sh : Bool) (s : Engine)
    (hobj : isObjectV t = true)
    (hfresh : lookupA (if ro then s.readonlyMap else s.reactiveMap) t = none) :
    createReactiveObj t ro sh s =
      ({ s with
          proxies := s.proxies ++ [(s.nextProxy, ⟨t, ro, sh⟩)],
          nextProxy := s.nextProxy + 1,
          reactiveMap := if ro then s.reactiveMap
            else s.reactiveMap ++ [(t, s.nextProxy)],
          readonlyMap := if ro then s.readonlyMap ++ [(t, s.nextProxy)]
            else s.readonlyMap },
        Val.proxy s.nextProxy) := by
  unfold createReactiveObj
  rw [if_pos hobj, hfresh]

/-- `createReactiveObj` on a cached target: returns the cached proxy and
leaves the state unchanged. -/
theorem createReactiveObj_hit (t : Val) (ro sh : Bool) (s : Engine) (p : Nat)
    (hobj : isObjectV t = true)
    (hhit : lookupA (if ro then s.readonlyMap else s.reactiveMap) t = some p) :
    createReactiveObj t ro sh s = (s, Val.proxy p) := by
  unfold createReactiveObj
  rw [if_pos hobj, hhit]

/-- A second wrap of the same target in the same mutability family — with
any shallowness flag — returns exactly the first wrapper and changes
nothing. -/
theorem createReactiveObj_second (t : Val) (ro sh1 sh2 : Bool) (s : Engine) :
    createReactiveObj t ro sh2 (createReactiveObj t ro sh1 s).1 =
      ((createReactiveObj t ro sh1 s).1, (createReactiveObj t ro sh1 s).2) := by
  by_cases hobj : isObjectV t = true
  · cases hl : lookupA (if ro then s.readonlyMap else s.reactiveMap) t with
    | some p =>
      rw [createReactiveObj_hit t ro sh1 s p hobj hl]
      rw [createReactiveObj_hit t ro sh2 s p hobj hl]
    | none =>
      rw [createReactiveObj_fresh t ro sh1 s hobj hl]
      have hl2 : lookupA
          (if ro then
            ({ s with
                proxies := s.proxies ++ [(s.nextProxy, ⟨t, ro, sh1⟩)],
                nextProxy := s.nextProxy + 1,
                reactiveMap := if ro then s.reactiveMap
                  else s.reactiveMap ++ [(t, s.nextProxy)],
                readonlyMap := if ro then s.readonlyMap ++ [(t, s.nextProxy)]
                  else s.readonlyMap } : Engine).readonlyMap
          else
            ({ s with
                proxies := s.proxies ++ [(s.nextProxy, ⟨t, ro, sh1⟩)],
                nextProxy := s.nextProxy + 1,
                reactiveMap := if ro then s.reactiveMap
                  else s.reactiveMap ++ [(t, s.nextProxy)],
                readonlyMap := if ro then s.readonlyMap ++ [(t, s.nextProxy)]
                  else s.readonlyMap } : Engine).reactiveMap) t
          = some s.nextProxy := by
        cases ro with
        | false =>
          simp only [if_neg, Bool.false_eq_true, if_false]
          have hl0 : lookupA s.reactiveMap t = none := by
            simpa using hl
          exact lookupA_append_single s.reactiveMap t s.nextProxy hl0
        | true =>
          simp only [if_pos]
          have hl0 : lookupA s.readonlyMap t = none := by
            simpa using hl
          exact lookupA_append_single s.readonlyMap t s.nextProxy hl0
      rw [createReactiveObj_hit t ro sh2 _ s.nextProxy hobj hl2]
  · unfold createReactiveObj
    simp [hobj]

/-- C1: the spec says the runner returned by `effect(fn, options)` returns
`fn`'s result to the caller.  The code's `reactiveEffect` closure calls
`fn()` without returning its value, so on `effect(() => 42)` the runner
invocation re-runs `fn` (the ghost run log grows) but returns `undefined`,
not 42 — contradicting the spec and the repository's own computed
documentation, which assigns `this._value = this.effect()`. -/
theorem claimC1_runner_returns_undefined :
    c1Setup.2 = Res.ok 0 ∧
    (iRun (interp 5) 0 c1Setup.1).2 = Res.ok Val.undef ∧
    ((iRun (interp 5) 0 c1Setup.1).1).runLog = [0, 0] ∧
    Res.ok Val.undef ≠ Res.ok (Val.num (JsNum.int 42)) :=
  ⟨by decide, by decide, by decide, by decide⟩

/-- C2: in the chain `a = ref(1)`, `b = computed(() => a.value * 2)`,
`c = computed(() => b.value + 1)`, the first read of `c.value` yields
`undefined` (not 3) and after `a.value = 5` the second read again yields
`undefined` (not 11), because the runner discards the getter's return
value; the dirty flags do propagate transitively (both computeds are
dirty after the write, and the run log `[1, 0, 1, 0]` shows `b`'s runner
re-executing inside each recomputation of `c`). -/
theorem claimC2_computed_chain_undefined :
    c2Read1.2 = Res.ok Val.undef ∧
    Res.ok Val.undef ≠ Res.ok (Val.num (JsNum.int 3)) ∧
    c2Write.2 = Res.ok (Val.num (JsNum.int 5)) ∧
    lookupA c2Write.1.comps c2B.2 = some ⟨true, Val.undef, 0⟩ ∧
    lookupA c2Write.1.comps c2C.2 = some ⟨true, Val.undef, 1⟩ ∧
    c2Read2.2 = Res.ok Val.undef ∧
    Res.ok Val.undef ≠ Res.ok (Val.num (JsNum.int 11)) ∧
    c2Read2.1.runLog = [1, 0, 1, 0] :=
  ⟨by decide, by decide, by decide, by decide, by decide, by decide,
   by decide, by decide⟩

/-- C9: wrapping the same value twice under the same capability variant
returns a reference-identical wrapper (and a second call changes nothing):
`reactive(x) === reactive(x)` and likewise for `shallowReactive`,
`readonly` and `shallowReadonly`. -/
theorem claimC9_wrapper_identity (s : Engine) (v : Val) :
    reactiveF v (reactiveF v s).1 = ((reactiveF v s).1, (reactiveF v s).2) ∧
    shallowReactiveF v (shallowReactiveF v s).1 =
      ((shallowReactiveF v s).1, (shallowReactiveF v s).2) ∧
    readonlyF v (readonlyF v s).1 = ((readonlyF v s).1, (readonlyF v s).2) ∧
    shallowReadonlyF v (shallowReadonlyF v s).1 =
      ((shallowReadonlyF v s).1, (shallowReadonlyF v s).2) :=
  ⟨createReactiveObj_second v false false false s,
   createReactiveObj_second v false true true s,
   createReactiveObj_second v true false false s,
   createReactiveObj_second v true true true s⟩

/-- C3: `reactive` and `shallowReactive` share the `reactiveMap` cache and
`readonly`/`shallowReadonly` share `readonlyMap`: whichever variant of a
mutability family is called first on a fresh raw object creates the proxy
(with the first caller's handler flags), and the other variant then
returns that very proxy unchanged. -/
theorem claimC3_family_shared_cache (s : Engine) (x : Nat)
    (h1 : lookupA s.reactiveMap (Val.obj x) = none)
    (h2 : lookupA s.readonlyMap (Val.obj x) = none)
    (h3 : lookupA s.proxies s.nextProxy = none) :
    (shallowReactiveF (Val.obj x) (reactiveF (Val.obj x) s).1
        = ((reactiveF (Val.obj x) s).1, (reactiveF (Val.obj x) s).2)
      ∧ (reactiveF (Val.obj x) s).2 = Val.proxy s.nextProxy
      ∧ lookupA ((reactiveF (Val.obj x) s).1).proxies s.nextProxy
          = some ⟨Val.obj x, false, false⟩)
    ∧ (reactiveF (Val.obj x) (shallowReactiveF (Val.obj x) s).1
        = ((shallowReactiveF (Val.obj x) s).1, (shallowReactiveF (Val.obj x) s).2)
      ∧ lookupA ((shallowReactiveF (Val.obj x) s).1).proxies s.nextProxy
          = some ⟨Val.obj x, false, true⟩)
    ∧ (shallowReadonlyF (Val.obj x) (readonlyF (Val.obj x) s).1
        = ((readonlyF (Val.obj x) s).1, (readonlyF (Val.obj x) s).2)
      ∧ lookupA ((readonlyF (Val.obj x) s).1).proxies s.nextProxy
          = some ⟨Val.obj x, true, false⟩)
    ∧ (readonlyF (Val.obj x) (shallowReadonlyF (Val.obj x) s).1
        = ((shallowReadonlyF (Val.obj x) s).1, (shallowReadonlyF (Val.obj x) s).2)
      ∧ lookupA ((shallowReadonlyF (Val.obj x) s).1).proxies s.nextProxy
          = some ⟨Val.obj x, true, true⟩) := by
  have hobj : isObjectV (Val.obj x) = true := rfl
  have hf1 : lookupA (if false then s.readonlyMap else s.reactiveMap) (Val.obj x)
      = none := by simpa using h1
  have hf2 : lookupA (if true then s.readonlyMap else s.reactiveMap) (Val.obj x)
      = none := by simpa using h2
  refine ⟨⟨createReactiveObj_second (Val.obj x) false false true s, ?_, ?_⟩,
          ⟨createReactiveObj_second (Val.obj x) false true false s, ?_⟩,
          ⟨createReactiveObj_second (Val.obj x) true false true s, ?_⟩,
          ⟨createReactiveObj_second (Val.obj x) true true false s, ?_⟩⟩
  · show (createReactiveObj (Val.obj x) false false s).2 = Val.proxy s.nextProxy
    rw [createReactiveObj_fresh (Val.obj x) false false s hobj hf1]
  · show lookupA ((createReactiveObj (Val.obj x) false false s).1).proxies
        s.nextProxy = some ⟨Val.obj x, false, false⟩
    rw [createReactiveObj_fresh (Val.obj x) false false s hobj hf1]
    exact lookupA_append_single s.proxies s.nextProxy _ h3
  · show lookupA ((createReactiveObj (Val.obj x) false true s).1).proxies
        s.nextProxy = some ⟨Val.obj x, false, true⟩
    rw [createReactiveObj_fresh (Val.obj x) false true s hobj hf1]
    exact lookupA_append_single s.proxies s.nextProxy _ h3
  · show lookupA ((createReactiveObj (Val.obj x) true false s).1).proxies
        s.nextProxy = some ⟨Val.obj x, true, false⟩
    rw [createReactiveObj_fresh (Val.obj x) true false s hobj hf2]
    exact lookupA_append_single s.proxies s.nextProxy _ h3
  · show lookupA ((createReactiveObj (Val.obj x) true true s).1).proxies
        s.nextProxy = some ⟨Val.obj x, true, true⟩
    rw [createReactiveObj_fresh (Val.obj x) true true s hobj hf2]
    exact lookupA_append_single s.proxies s.nextProxy _ h3

theorem claimC3_witness :
    (shallowReactiveF (Val.obj 0) (reactiveF (Val.obj 0) objK1).1
      = ((reactiveF (Val.obj 0) objK1).1, (reactiveF (Val.obj 0) objK1).2)) ∧
    lookupA ((reactiveF (Val.obj 0) objK1).1).proxies 0
      = some ⟨Val.obj 0, false, false⟩ :=
  ⟨(claimC3_family_shared_cache objK1 0 (by decide) (by decide) (by decide)).1.1,
   (claimC3_family_shared_cache objK1 0 (by decide) (by decide) (by decide)).1.2.2⟩

/-- C5: `trigger`'s snapshot never contains the currently active runner
(self-trigger suppression), and a computation that reads and then writes
the same tracked key through its wrapper runs exactly once at creation —
it is not re-invoked by its own write and does not recurse. -/
theorem claimC5_no_self_trigger :
    (∀ (s : Engine) (t : Src) (k : String) (a : Nat),
        s.activeEffect = some a → a ∉ triggerTargets s t k) ∧
    c5Run.2 = Res.ok 0 ∧ c5Run.1.runLog = [0] ∧
    objFieldLookup c5Run.1 0 "k" = Val.num (JsNum.int 2) := by
  refine ⟨?_, by decide, by decide, by decide⟩
  intro s t k a ha hmem
  unfold triggerTargets at hmem
  rcases htm : lookupA s.targetMap t with _ | dm
  · rw [htm] at hmem
    simp at hmem
  · rw [htm] at hmem
    dsimp only at hmem
    rcases hdm : lookupA dm k with _ | dep
    · rw [hdm] at hmem
      simp at hmem
    · rw [hdm] at hmem
      dsimp only at hmem
      rw [List.mem_filter] at hmem
      have h2 := hmem.2
      rw [ha] at h2
      simp at h2

theorem claimC5_witness : (7 : Nat) ∉ triggerTargets c5wState (Src.obj 0) "k" :=
  claimC5_no_self_trigger.1 c5wState (Src.obj 0) "k" 7 rfl

/-- C8: an attempted write through either read-only handler variant calls
the warning channel with the readonly message, raises nothing, and leaves
everything but the ghost warning log — in particular the underlying raw
object — exactly as it was. -/
theorem claimC8_readonly_write_warns (n : Nat) (s : Engine) (p : Nat)
    (info : ProxyInfo) (k : String) (v : Val)
    (hp : lookupA s.proxies p = some info) (hro : info.isReadonly = true) :
    iSet (interp (n + 1)) (Val.proxy p) k v s
      = ({ s with warnings := s.warnings ++ [readonlyWarnMsg k] }, Res.ok ()) := by
  show setFieldF (interp n) (Val.proxy p) k v s = _
  simp only [setFieldF]
  rw [hp]
  dsimp only
  rw [if_pos hro]

theorem claimC8_witness :
    lookupA c8Wrap.1.proxies 0 = some ⟨Val.obj 0, true, false⟩ ∧
    c8Write = ({ c8Wrap.1 with
      warnings := c8Wrap.1.warnings ++ [readonlyWarnMsg "k"] }, Res.ok ()) :=
  ⟨by decide,
   claimC8_readonly_write_warns 9 c8Wrap.1 0 ⟨Val.obj 0, true, false⟩ "k"
     (Val.num (JsNum.int 9)) (by decide) rfl⟩

/-- C7: writing `ref.value` notifies dependents iff the prepared new value
differs from the stored raw value under `Object.is`: a same-value write
returns with the prepared state unchanged in refs and run log (no store,
no notification); concretely, `ref(NaN).value = NaN` changes nothing at
all while `ref(0).value = -0` stores `-0` and re-runs the dependent
exactly once. -/
theorem claimC7_same_value_suppression :
    (∀ (n r : Nat) (v : Val) (s s2 : Engine) (st : RefSt) (ud : Bool) (nv : Val),
        lookupA s.refs r = some st →
        refPrepF (interp n) st v s = (s2, (ud, nv)) →
        sameVal nv st.rawValue = true →
        iRefSet (interp (n + 1)) r v s = (s2, Res.ok ()) ∧
        s2.refs = s.refs ∧ s2.runLog = s.runLog) ∧
    c7NaNWrite = (c7NaNDep.1, Res.ok ()) ∧
    c7ZeroWrite.2 = Res.ok () ∧
    c7ZeroWrite.1.runLog = c7ZeroDep.1.runLog ++ [0] ∧
    lookupA c7ZeroWrite.1.refs 0
      = some ⟨Val.num JsNum.negZero, Val.num JsNum.negZero, false⟩ := by
  refine ⟨?_, by decide, by decide, by decide, by decide⟩
  intro n r v s s2 st ud nv h1 h2 h3
  have hfr : GFrame s2 s := by
    have hx := gframe_refPrepF n st v s
    rw [h2] at hx
    exact hx
  refine ⟨?_, hfr.2.1, hfr.2.2.2.2.2.2.1⟩
  show refSetVF (interp n) r v s = _
  simp only [refSetVF]
  rw [h1]
  dsimp only
  rw [h2]
  dsimp only
  rw [h3]
  simp

theorem claimC7_witness :
    lookupA c7NaNDep.1.refs 0
      = some ⟨Val.num JsNum.nan, Val.num JsNum.nan, false⟩ ∧
    refPrepF (interp 19) ⟨Val.num JsNum.nan, Val.num JsNum.nan, false⟩
      (Val.num JsNum.nan) c7NaNDep.1
      = (c7NaNDep.1, (false, Val.num JsNum.nan)) ∧
    sameVal (Val.num JsNum.nan) (Val.num JsNum.nan) = true ∧
    iRefSet (interp 20) 0 (Val.num JsNum.nan) c7NaNDep.1
      = (c7NaNDep.1, Res.ok ()) :=
  ⟨by decide, by decide, by decide,
   (claimC7_same_value_suppression.1 19 0 (Val.num JsNum.nan) c7NaNDep.1
     c7NaNDep.1 ⟨Val.num JsNum.nan, Val.num JsNum.nan, false⟩ false
     (Val.num JsNum.nan) (by decide) (by decide) (by decide)).1⟩

/-- C4: a raising computation body propagates its exception out of the
runner invocation uncaught, yet the `finally` of `reactiveEffect`
unconditionally pops the runner and reinstates the new stack top (or
none) as the active effect: the final effect stack equals the original
one. -/
theorem claimC4_throw_unwinds_stack (n e : Nat) (d : EffDef) (s sx : Engine)
    (er : Err)
    (hd : lookupA s.effs e = some d)
    (hstk : e ∉ s.effectStack)
    (heval : iEval (interp n) d.body
        { s with effectStack := e :: s.effectStack, activeEffect := some e,
                 runLog := s.runLog ++ [e] } = (sx, Res.err er)) :
    iRun (interp (n + 1)) e s =
      ({ sx with effectStack := s.effectStack,
                 activeEffect := s.effectStack.head? }, Res.err er) ∧
    sx.effectStack = e :: s.effectStack := by
  have hsx : sx.effectStack = e :: s.effectStack := by
    have hx := (stackInv_all n).evalExp d.body
      { s with effectStack := e :: s.effectStack, activeEffect := some e,
               runLog := s.runLog ++ [e] }
    rw [heval] at hx
    exact hx
  refine ⟨?_, hsx⟩
  show runEffF (interp n) e s = _
  simp only [runEffF]
  rw [if_neg hstk, hd]
  dsimp only
  rw [heval]
  dsimp only
  rw [hsx]
  simp

/-- Reading a key that the raw target lacks through a proxy yields
`undefined` and leaves the proxy registry, heap and refs untouched (only
the dependency graph may record the read). -/
theorem magicKey_get (m : Nat) (s' : Engine) (p o : Nat) (info : ProxyInfo)
    (flds : List (String × Val)) (k : String)
    (hp : lookupA s'.proxies p = some info) (ht : info.target = Val.obj o)
    (ho : lookupA s'.objs o = some flds) (hk : lookupA flds k = none) :
    (iGet (interp m) (Val.proxy p) k s').2 = Val.undef ∧
    ((iGet (interp m) (Val.proxy p) k s').1).proxies = s'.proxies ∧
    ((iGet (interp m) (Val.proxy p) k s').1).objs = s'.objs ∧
    ((iGet (interp m) (Val.proxy p) k s').1).refs = s'.refs := by
  cases m with
  | zero => exact ⟨rfl, rfl, rfl, rfl⟩
  | succ m2 =>
    have main : ((getFieldF (interp m2) (Val.proxy p) k s').2 = Val.undef ∧
        ((getFieldF (interp m2) (Val.proxy p) k s').1).proxies = s'.proxies ∧
        ((getFieldF (interp m2) (Val.proxy p) k s').1).objs = s'.objs ∧
        ((getFieldF (interp m2) (Val.proxy p) k s').1).refs = s'.refs) := by
      simp only [getFieldF]
      rw [hp]
      dsimp only
      rw [ht]
      have hin : iGet (interp m2) (Val.obj o) k s' = (s', Val.undef) := by
        cases m2 with
        | zero => rfl
        | succ m3 =>
          show getFieldF (interp m3) (Val.obj o) k s' = (s', Val.undef)
          simp only [getFieldF]
          simp [objFieldLookup, ho, hk]
      rw [hin]
      dsimp only [isObjectV]
      simp only [Bool.false_eq_true, if_false, ite_self]
      refine ⟨by trivial, ?_, ?_, ?_⟩
      · split
        · rfl
        · split
          · exact (trackOp_frame _ _ _).2.1
          · rfl
      · split
        · rfl
        · split
          · exact (trackOp_frame _ _ _).1
          · rfl
      · split
        · rfl
        · split
          · exact (trackOp_frame _ _ _).2.2.2.2.2.1
          · rfl
    exact main

/-- `toRaw` on a proxy whose raw target lacks a literal `__v_raw` returns
the proxy itself. -/
theorem magic_toRaw (m : Nat) (s' : Engine) (p o : Nat) (info : ProxyInfo)
    (flds : List (String × Val))
    (hp : lookupA s'.proxies p = some info) (ht : info.target = Val.obj o)
    (ho : lookupA s'.objs o = some flds)
    (h1 : lookupA flds "__v_raw" = none) :
    (iToRaw (interp (m + 1)) (Val.proxy p) s').2 = Val.proxy p := by
  have hv := (magicKey_get m s' p o info flds "__v_raw" hp ht ho h1).1
  show (toRawValF (interp m) (Val.proxy p) s').2 = Val.proxy p
  simp [toRawValF, truthy, hv]

/-- `isShallow` on such a proxy is `false`, and the check only reads. -/
theorem magic_isShallow (m : Nat) (s' : Engine) (p o : Nat) (info : ProxyInfo)
    (flds : List (String × Val))
    (hp : lookupA s'.proxies p = some info) (ht : info.target = Val.obj o)
    (ho : lookupA s'.objs o = some flds)
    (h2 : lookupA flds "__v_isShallow" = none) :
    (isShallowValF (interp m) (Val.proxy p) s').2 = false ∧
    ((isShallowValF (interp m) (Val.proxy p) s').1).proxies = s'.proxies ∧
    ((isShallowValF (interp m) (Val.proxy p) s').1).objs = s'.objs ∧
    ((isShallowValF (interp m) (Val.proxy p) s').1).refs = s'.refs := by
  have hx := magicKey_get m s' p o info flds "__v_isShallow" hp ht ho h2
  constructor
  · simp [isShallowValF, truthy, hx.1]
  · simp only [isShallowValF, truthy]
    exact ⟨hx.2.1, hx.2.2.1, hx.2.2.2⟩

/-- `isReadonly` on such a proxy is `false`, and the check only reads. -/
theorem magic_isReadonly (m : Nat) (s' : Engine) (p o : Nat) (info : ProxyInfo)
    (flds : List (String × Val))
    (hp : lookupA s'.proxies p = some info) (ht : info.target = Val.obj o)
    (ho : lookupA s'.objs o = some flds)
    (h3 : lookupA flds "__v_isReadonly" = none) :
    (isReadonlyValF (interp m) (Val.proxy p) s').2 = false ∧
    ((isReadonlyValF (interp m) (Val.proxy p) s').1).proxies = s'.proxies ∧
    ((isReadonlyValF (interp m) (Val.proxy p) s').1).objs = s'.objs ∧
    ((isReadonlyValF (interp m) (Val.proxy p) s').1).refs = s'.refs := by
  have hx := magicKey_get m s' p o info flds "__v_isReadonly" hp ht ho h3
  constructor
  · simp [isReadonlyValF, truthy, hx.1]
  · simp only [isReadonlyValF, truthy]
    exact ⟨hx.2.1, hx.2.2.1, hx.2.2.2⟩

/-- C10: the handlers never implement `__v_raw`, `__v_isShallow` or
`__v_isReadonly`, so reading them through a proxy over a raw object
lacking those literal keys yields `undefined`; consequently `toRaw`
returns the proxy itself, `isShallow`/`isReadonly` are false, and the ref
setter's prepared comparison value for such a proxy is the proxy's own
identity (not the wrapped raw object); concretely, writing the deep proxy
of object 0 into a deep ref stores `rawValue := proxy 0` and re-wraps the
proxy itself as a proxy-over-proxy for `_value`. -/
theorem claimC10_magic_keys_unimplemented (n : Nat) (s : Engine) (p o : Nat)
    (info : ProxyInfo) (flds : List (String × Val))
    (hp : lookupA s.proxies p = some info) (ht : info.target = Val.obj o)
    (ho : lookupA s.objs o = some flds)
    (h1 : lookupA flds "__v_raw" = none)
    (h2 : lookupA flds "__v_isShallow" = none)
    (h3 : lookupA flds "__v_isReadonly" = none) :
    ((iGet (interp n) (Val.proxy p) "__v_raw" s).2 = Val.undef) ∧
    ((iGet (interp n) (Val.proxy p) "__v_isShallow" s).2 = Val.undef) ∧
    ((iGet (interp n) (Val.proxy p) "__v_isReadonly" s).2 = Val.undef) ∧
    ((iToRaw (interp (n + 1)) (Val.proxy p) s).2 = Val.proxy p) ∧
    ((isShallowValF (interp n) (Val.proxy p) s).2 = false) ∧
    ((isReadonlyValF (interp n) (Val.proxy p) s).2 = false) ∧
    (∀ (r : Nat) (st : RefSt), lookupA s.refs r = some st → st.shallow = false →
      (refPrepF (interp (n + 2)) st (Val.proxy p) s).2 = (false, Val.proxy p)) ∧
    c10Write.2 = Res.ok () ∧
    lookupA c10Write.1.refs 0 = some ⟨Val.proxy 0, Val.proxy 1, false⟩ ∧
    lookupA c10Write.1.proxies 1 = some ⟨Val.proxy 0, false, false⟩ := by
  refine ⟨(magicKey_get n s p o info flds "__v_raw" hp ht ho h1).1,
    (magicKey_get n s p o info flds "__v_isShallow" hp ht ho h2).1,
    (magicKey_get n s p o info flds "__v_isReadonly" hp ht ho h3).1,
    magic_toRaw n s p o info flds hp ht ho h1,
    (magic_isShallow n s p o info flds hp ht ho h2).1,
    (magic_isReadonly n s p o info flds hp ht ho h3).1,
    ?_, by decide, by decide, by decide⟩
  intro r st hr hshal
  show (refPrepF (interp (n + 2)) st (Val.proxy p) s).2 = (false, Val.proxy p)
  simp only [refPrepF]
  rcases hsh : isShallowValF (interp (n + 2)) (Val.proxy p) s with ⟨s1, sh⟩
  have hA := magic_isShallow (n + 2) s p o info flds hp ht ho h2
  rw [hsh] at hA
  have hA1 : sh = false := hA.1
  have hp1 : lookupA s1.proxies p = some info := by
    have := hA.2.1
    rw [this]
    exact hp
  have ho1 : lookupA s1.objs o = some flds := by
    have := hA.2.2.1
    rw [this]
    exact ho
  dsimp only
  rcases hro : isReadonlyValF (interp (n + 2)) (Val.proxy p) s1 with ⟨s2, ro⟩
  have hB := magic_isReadonly (n + 2) s1 p o info flds hp1 ht ho1 h3
  rw [hro] at hB
  have hB1 : ro = false := hB.1
  have hp2 : lookupA s2.proxies p = some info := by
    have := hB.2.1
    rw [this]
    exact hp1
  have ho2 : lookupA s2.objs o = some flds := by
    have := hB.2.2.1
    rw [this]
    exact ho1
  dsimp only
  rw [hA1, hB1, hshal]
  simp only [Bool.or_false, Bool.false_eq_true, if_false]
  rcases htr : iToRaw (interp (n + 2)) (Val.proxy p) s2 with ⟨s3, nv⟩
  have hnv : nv = Val.proxy p := by
    have hx := magic_toRaw (n + 1) s2 p o info flds hp2 ht ho2 h1
    rw [htr] at hx
    exact hx
  dsimp only
  rw [hnv]

/-- What a successful `effect(body)` creation run on the C6 initial engine
guarantees: the runner got uid 0, ran exactly once, unwound its context,
and left a dependency graph that mentions only runner 0, without
duplicates; the wrapper proxy is still registered with its deep mutable
handlers. -/
theorem c6_create_spec (n : Nat) (body : Exp) (o : Nat)
    (flds : List (String × Val)) (s1 : Engine) (e : Nat)
    (hnc : noComp body = true)
    (hcr : effectCreate n body none false (c6Init o flds).1 = (s1, Res.ok e)) :
    e = 0 ∧ s1.activeEffect = none ∧ s1.effectStack = [] ∧ s1.runLog = [0] ∧
    s1.effs = [(0, ⟨body, none⟩)] ∧ DepsOnly 0 s1 ∧ DepsNodup s1 ∧
    lookupA s1.proxies 0 = some ⟨Val.obj o, false, false⟩ := by
  have hinit : (c6Init o flds).1 = c6S0 o flds := rfl
  rw [hinit] at hcr
  have hstep : effectCreate n body none false (c6S0 o flds)
      = (match iRun (interp n) 0 (c6SReg o flds body) with
         | (s2, Res.ok _) => (s2, Res.ok 0)
         | (s2, Res.err er) => (s2, Res.err er)) := rfl
  rw [hstep] at hcr
  rcases hrun : iRun (interp n) 0 (c6SReg o flds body) with ⟨s2, r⟩
  rw [hrun] at hcr
  cases r with
  | err er => simp at hcr
  | ok v =>
    dsimp only at hcr
    have hs1 : s1 = s2 := by
      have := congrArg Prod.fst hcr
      exact this.symm
    have he : e = 0 := by
      have h2 := congrArg Prod.snd hcr
      dsimp at h2
      cases h2
      rfl
    cases n with
    | zero =>
      rw [show iRun (interp 0) 0 (c6SReg o flds body)
          = (c6SReg o flds body, Res.err Err.fuel) from rfl] at hrun
      simp at hrun
    | succ m =>
      rcases heval : iEval (interp m) body (c6Push o flds body) with ⟨s3, r3⟩
      have Pst0 : EPost 0 (c6Push o flds body) ((iEval (interp m) body (c6Push o flds body)).1) :=
        (onlyInv_all 0 m).evalExp body (c6Push o flds body) hnc rfl
          (by
            intro t k l hl
            simp [depLookup, c6Push, c6SReg, c6S0, lookupA] at hl)
      rw [heval] at Pst0
      have hpushfact :
          ({ c6SReg o flds body with
              effectStack := 0 :: (c6SReg o flds body).effectStack,
              activeEffect := some 0,
              runLog := (c6SReg o flds body).runLog ++ [0] } : Engine)
            = c6Push o flds body := rfl
      cases r3 with
      | err er =>
        have hre : iRun (interp (m + 1)) 0 (c6SReg o flds body)
            = ({ s3 with
                  effectStack := s3.effectStack.tail,
                  activeEffect := s3.effectStack.tail.head? }, Res.err er) := by
          show runEffF (interp m) 0 (c6SReg o flds body) = _
          simp only [runEffF]
          rw [if_neg (show ¬ (0 ∈ (c6SReg o flds body).effectStack) by
            simp [c6SReg, c6S0])]
          rw [show lookupA (c6SReg o flds body).effs 0 = some ⟨body, none⟩ from rfl]
          dsimp only
          rw [hpushfact, heval]
        rw [hre] at hrun
        simp at hrun
      | ok v3 =>
        have hre : iRun (interp (m + 1)) 0 (c6SReg o flds body)
            = ({ s3 with
                  effectStack := s3.effectStack.tail,
                  activeEffect := s3.effectStack.tail.head? }, Res.ok Val.undef) := by
          show runEffF (interp m) 0 (c6SReg o flds body) = _
          simp only [runEffF]
          rw [if_neg (show ¬ (0 ∈ (c6SReg o flds body).effectStack) by
            simp [c6SReg, c6S0])]
          rw [show lookupA (c6SReg o flds body).effs 0 = some ⟨body, none⟩ from rfl]
          dsimp only
          rw [hpushfact, heval]
        rw [hre] at hrun
        have hs2 : s2 = { s3 with
            effectStack := s3.effectStack.tail,
            activeEffect := s3.effectStack.tail.head? } := by
          have := congrArg Prod.fst hrun
          exact this.symm
        have hstk3 : s3.effectStack = [0] := Pst0.stack
        have hlog3 : s3.runLog = [0] := Pst0.runLog
        have heffs3 : s3.effs = [(0, ⟨body, none⟩)] := Pst0.effs
        refine ⟨he, ?_, ?_, ?_, ?_, ?_, ?_, ?_⟩
        · rw [hs1, hs2]
          show s3.effectStack.tail.head? = none
          rw [hstk3]
          rfl
        · rw [hs1, hs2]
          show s3.effectStack.tail = []
          rw [hstk3]
          rfl
        · rw [hs1, hs2]
          show s3.runLog = [0]
          exact hlog3
        · rw [hs1, hs2]
          show s3.effs = [(0, ⟨body, none⟩)]
          exact heffs3
        · rw [hs1, hs2]
          exact depsOnly_congr rfl Pst0.depsOnly
        · rw [hs1, hs2]
          refine depsNodup_congr rfl (Pst0.nodup ?_)
          intro t k l hl
          simp [depLookup, c6Push, c6SReg, c6S0, lookupA] at hl
        · rw [hs1, hs2]
          show lookupA s3.proxies 0 = some ⟨Val.obj o, false, false⟩
          exact Pst0.proxMono 0 _ rfl

/-- Invoking a registered computed-free runner from a quiescent context
(empty stack, no active effect) in a graph that only mentions it executes
it exactly once: on success the ghost run log grows by exactly that one
entry. -/
theorem runEff_once (m e : Nat) (d : EffDef) (s s5 : Engine) (v5 : Val)
    (hnc : noComp d.body = true) (hd : lookupA s.effs e = some d)
    (hstk : s.effectStack = []) (hact : s.activeEffect = none)
    (hdo : DepsOnly e s)
    (hrun : iRun (interp m) e s = (s5, Res.ok v5)) :
    s5.runLog = s.runLog ++ [e] := by
  cases m with
  | zero =>
    rw [show iRun (interp 0) e s = (s, Res.err Err.fuel) from rfl] at hrun
    simp at hrun
  | succ m5 =>
    have hrun2 : runEffF (interp m5) e s = (s5, Res.ok v5) := hrun
    have hnm : ¬ (e ∈ s.effectStack) := by
      rw [hstk]
      simp
    rcases heval : iEval (interp m5) d.body
        { s with effectStack := e :: s.effectStack, activeEffect := some e,
                 runLog := s.runLog ++ [e] } with ⟨s4, r4⟩
    have Pst : EPost e
        { s with effectStack := e :: s.effectStack, activeEffect := some e,
                 runLog := s.runLog ++ [e] }
        ((iEval (interp m5) d.body
          { s with effectStack := e :: s.effectStack, activeEffect := some e,
                   runLog := s.runLog ++ [e] }).1) :=
      (onlyInv_all e m5).evalExp d.body _ hnc rfl (depsOnly_congr rfl hdo)
    rw [heval] at Pst
    cases r4 with
    | err er =>
      have hre : runEffF (interp m5) e s
          = ({ s4 with
                effectStack := s4.effectStack.tail,
                activeEffect := s4.effectStack.tail.head? }, Res.err er) := by
        simp only [runEffF]
        rw [if_neg hnm, hd]
        dsimp only
        rw [heval]
      rw [hre] at hrun2
      simp at hrun2
    | ok v4 =>
      have hre : runEffF (interp m5) e s
          = ({ s4 with
                effectStack := s4.effectStack.tail,
                activeEffect := s4.effectStack.tail.head? }, Res.ok Val.undef) := by
        simp only [runEffF]
        rw [if_neg hnm, hd]
        dsimp only
        rw [heval]
      rw [hre] at hrun2
      have hs5 : s5 = { s4 with
          effectStack := s4.effectStack.tail,
          activeEffect := s4.effectStack.tail.head? } :=
        (congrArg Prod.fst hrun2).symm
      rw [hs5]
      show s4.runLog = s.runLog ++ [e]
      exact Pst.runLog

/-- C6: with one computed-free computation subscribed to `wrap(o).k` after
its creation run, a later write `wrap(o).k = v` from a quiescent context
that completes successfully re-runs that computation exactly once: the
ghost run log grows by exactly one entry for it (and only it), and the
write expression evaluates to the assigned value. -/
theorem claimC6_write_reruns_once (n m : Nat) (body : Exp) (o : Nat)
    (flds : List (String × Val)) (k : String) (v w : Val) (e : Nat)
    (s1 s2 : Engine)
    (hnc : noComp body = true)
    (hcr : effectCreate n body none false (c6Init o flds).1 = (s1, Res.ok e))
    (hdep : ∃ l, depLookup s1 (Src.obj o) k = some l ∧ e ∈ l)
    (hdiff : sameVal v (objFieldLookup s1 o k) = false)
    (hwrite : iEval (interp m)
        (Exp.propSetE (c6Init o flds).2 k (Exp.lit v)) s1 = (s2, Res.ok w)) :
    s2.runLog = s1.runLog ++ [e] ∧ w = v ∧ s1.runLog = [e] := by
  obtain ⟨he0, hact1, hstk1, hrl1, heffs1, hdo1, hnd1, hpx⟩ :=
    c6_create_spec n body o flds s1 e hnc hcr
  subst he0
  obtain ⟨l, hl, hmem⟩ := hdep
  have hsub : ∀ x ∈ l, x = 0 := hdo1 (Src.obj o) k l hl
  have hnodup : l.Nodup := hnd1 (Src.obj o) k l hl
  have hl0 : l = [0] := by
    cases l with
    | nil => simp at hmem
    | cons x t =>
      have hx : x = 0 := hsub x (List.mem_cons_self x t)
      subst hx
      cases t with
      | nil => rfl
      | cons y t2 =>
        have hy : y = 0 := hsub y (by simp)
        have hnin : (0 : Nat) ∉ (y :: t2) := (List.nodup_cons.1 hnodup).1
        exact absurd (by rw [hy]; exact List.mem_cons_self 0 t2) hnin
  have hdl : depLookup s1 (Src.obj o) k = some [0] := by
    rw [← hl0]
    exact hl
  have hpv : (c6Init o flds).2 = Val.proxy 0 := rfl
  rw [hpv] at hwrite
  have sWf := setObjField_frame s1 o k v
  have heW : lookupA (setObjField s1 o k v).effs 0 = some ⟨body, none⟩ := by
    rw [sWf.2.2.2.1, heffs1]
    simp [lookupA]
  have hstkW : (setObjField s1 o k v).effectStack = [] := by
    rw [sWf.2.2.2.2.2.1, hstk1]
  have hactW : (setObjField s1 o k v).activeEffect = none := by
    rw [sWf.2.2.2.2.1, hact1]
  have hdoW : DepsOnly 0 (setObjField s1 o k v) :=
    depsOnly_congr sWf.2.2.2.2.2.2.1 hdo1
  have hTargets : triggerTargets (setObjField s1 o k v) (Src.obj o) k = [0] := by
    unfold triggerTargets
    rw [sWf.2.2.2.2.2.2.1]
    rcases hdm : lookupA s1.targetMap (Src.obj o) with _ | dm
    · simp [depLookup, hdm] at hdl
    · have hdk : lookupA dm k = some [0] := by
        simpa [depLookup, hdm] using hdl
      dsimp only
      rw [hdk]
      dsimp only
      rw [hactW]
      simp
  cases m with
  | zero =>
    rw [show iEval (interp 0) (Exp.propSetE (Val.proxy 0) k (Exp.lit v)) s1
        = (s1, Res.err Err.fuel) from rfl] at hwrite
    simp at hwrite
  | succ m1 =>
    have hwrite2 : evalExpF (interp m1)
        (Exp.propSetE (Val.proxy 0) k (Exp.lit v)) s1 = (s2, Res.ok w) := hwrite
    cases m1 with
    | zero =>
      rw [show evalExpF (interp 0) (Exp.propSetE (Val.proxy 0) k (Exp.lit v)) s1
          = (s1, Res.err Err.fuel) from rfl] at hwrite2
      simp at hwrite2
    | succ m2 =>
      simp only [evalExpF] at hwrite2
      rw [show iEval (interp (m2 + 1)) (Exp.lit v) s1 = (s1, Res.ok v) from rfl]
        at hwrite2
      dsimp only at hwrite2
      rw [show iSet (interp (m2 + 1)) (Val.proxy 0) k v s1
          = setFieldF (interp m2) (Val.proxy 0) k v s1 from rfl] at hwrite2
      cases m2 with
      | zero =>
        rw [show setFieldF (interp 0) (Val.proxy 0) k v s1
            = (s1, Res.err Err.fuel) from by
          simp only [setFieldF]
          rw [hpx]
          rfl] at hwrite2
        simp at hwrite2
      | succ m3 =>
        have hsetF : setFieldF (interp (m3 + 1)) (Val.proxy 0) k v s1
            = iRunList (interp m3) [0] (setObjField s1 o k v) := by
          simp only [setFieldF]
          rw [hpx]
          dsimp only
          rw [show iGet (interp (m3 + 1)) (Val.obj o) k s1
              = (s1, objFieldLookup s1 o k) from rfl]
          dsimp only
          rw [show iSet (interp (m3 + 1)) (Val.obj o) k v s1
              = (setObjField s1 o k v, Res.ok ()) from rfl]
          dsimp only
          rw [if_neg (by decide : ¬ (false = true))]
          rw [show srcOfVal (Val.obj o) = some (Src.obj o) from rfl]
          dsimp only
          rw [show iTrig (interp (m3 + 1)) (Src.obj o) k (setObjField s1 o k v)
              = iRunList (interp m3)
                  (triggerTargets (setObjField s1 o k v) (Src.obj o) k)
                  (setObjField s1 o k v) from rfl]
          rw [hTargets]
        rw [hsetF] at hwrite2
        cases m3 with
        | zero =>
          rw [show iRunList (interp 0) [0] (setObjField s1 o k v)
              = (setObjField s1 o k v, Res.err Err.fuel) from rfl] at hwrite2
          simp at hwrite2
        | succ m4 =>
          rcases hrun2 : iRun (interp m4) 0 (setObjField s1 o k v) with ⟨s5x, r5⟩
          cases r5 with
          | err er =>
            rw [show iRunList (interp (m4 + 1)) [0] (setObjField s1 o k v)
                = (s5x, Res.err er) from by
              show runEffListF (interp m4) [0] (setObjField s1 o k v) = _
              simp only [runEffListF]
              rw [heW]
              dsimp only
              rw [hrun2]] at hwrite2
            simp at hwrite2
          | ok v5 =>
            cases m4 with
            | zero =>
              rw [show iRun (interp 0) 0 (setObjField s1 o k v)
                  = (setObjField s1 o k v, Res.err Err.fuel) from rfl] at hrun2
              simp at hrun2
            | succ m5 =>
              have hlog5 : s5x.runLog = (setObjField s1 o k v).runLog ++ [0] :=
                runEff_once (m5 + 1) 0 ⟨body, none⟩ (setObjField s1 o k v) s5x
                  v5 hnc heW hstkW hactW hdoW hrun2
              rw [show iRunList (interp (m5 + 1 + 1)) [0] (setObjField s1 o k v)
                  = (s5x, Res.ok ()) from by
                show runEffListF (interp (m5 + 1)) [0] (setObjField s1 o k v) = _
                simp only [runEffListF]
                rw [heW]
                dsimp only
                rw [hrun2]
                rfl] at hwrite2
              dsimp only at hwrite2
              have hs2 : s2 = s5x := (congrArg Prod.fst hwrite2).symm
              have hwv : w = v := by
                have h2 := congrArg Prod.snd hwrite2
                dsimp at h2
                cases h2
                rfl
              refine ⟨?_, hwv, hrl1⟩
              rw [hs2, hlog5, sWf.2.2.2.2.2.2.2.1, hrl1]

theorem claimC6_witness :
    c6wWrite.1.runLog = c6wS1.runLog ++ [0]
    ∧ Val.num (JsNum.int 2) = Val.num (JsNum.int 2)
    ∧ c6wS1.runLog = [0] :=
  claimC6_write_reruns_once 10 20 c6wBody 0 [("k", Val.num (JsNum.int 1))] "k"
    (Val.num (JsNum.int 2)) (Val.num (JsNum.int 2)) 0 c6wS1 c6wWrite.1
    (by decide) (by decide) ⟨[0], by decide, by decide⟩ (by decide) (by decide)

theorem claimC10_witness :
    lookupA c10Ref.1.proxies 0 = some ⟨Val.obj 0, false, false⟩ ∧
    lookupA c10Ref.1.objs 0 = some [("k", Val.num (JsNum.int 1))] ∧
    (iToRaw (interp 1) (Val.proxy 0) c10Ref.1).2 = Val.proxy 0 ∧
    (isShallowValF (interp 0) (Val.proxy 0) c10Ref.1).2 = false :=
  ⟨by decide, by decide,
   (claimC10_magic_keys_unimplemented 0 c10Ref.1 0 0 ⟨Val.obj 0, false, false⟩
     [("k", Val.num (JsNum.int 1))] (by decide) rfl (by decide) (by decide)
     (by decide) (by decide)).2.2.2.1,
   (claimC10_magic_keys_unimplemented 0 c10Ref.1 0 0 ⟨Val.obj 0, false, false⟩
     [("k", Val.num (JsNum.int 1))] (by decide) rfl (by decide) (by decide)
     (by decide) (by decide)).2.2.2.2.1⟩

theorem claimC4_witness :
    lookupA c4S.effs 0 = some ⟨Exp.throwE 7, none⟩ ∧
    (0 ∉ c4S.effectStack) ∧
    iEval (interp 3) (Exp.throwE 7)
      { c4S with effectStack := 0 :: c4S.effectStack, activeEffect := some 0,
                 runLog := c4S.runLog ++ [0] }
      = (c4Pushed, Res.err (Err.user 7)) ∧
    iRun (interp 4) 0 c4S
      = ({ c4Pushed with effectStack := [], activeEffect := none },
         Res.err (Err.user 7)) :=
  ⟨by decide, by decide, by decide,
   (claimC4_throw_unwinds_stack 3 0 ⟨Exp.throwE 7, none⟩ c4S c4Pushed
     (Err.user 7) (by decide) (by decide) (by decide)).1⟩

end MiniVue
